import Mathlib

/-!
Verification development for the parameter-management core of GPy
(`GPy/core/parameter.py`): the `Param` class (a numpy ndarray subclass
carrying view/tie metadata) and the `ParamConcatenation` facade.

The Python source is shallowly embedded:
* index expressions (`_current_slice_` tuples) become the inductive `PyIdx`;
  `Param._expand_index`, `Param._indices` and `Param._raveled_index` become
  pure functions over `List PyIdx` and a backing shape;
* the tie/propagation machinery (`tie_to`, `untie`, `__setitem__`,
  `_fire_changed`, `_on_change`, `_add_tie_listener`, `_remove_tie_listener`)
  becomes a fuel-indexed state machine over a model of the owner's parameter
  registry, with buffers flattened to raveled order (the code itself indexes
  `self.base` with raveled offsets) and calls to the external owner
  (`parameters_changed`) recorded as events;
* `ParamConcatenation.__getitem__` becomes a function over flat member buffers;
* numpy's `__array_wrap__` / `__array_priority__` ufunc protocol and the
  pickle protocol (`__reduce__` / `__setstate__`) are embedded structurally.

Values are modelled as integers: the tie machinery only copies and compares
values, it performs no floating-point arithmetic on them.
-/

namespace GPyParam

/-! ### Index expressions

One component of the tuple stored in `_current_slice_`.  `slc s t st` is
`slice(s, t, st)` (`slc none none none` is `slice(None)`), `arr l` is an
explicit integer list/array component, `num i` a scalar integer component.
-/

inductive PyIdx where
  | ellipsis
  | slc (start stop stepv : Option Int)
  | arr (l : List Int)
  | num (i : Int)
deriving DecidableEq, Repr

/-- Number of elements of the Python range `start:stop:step`
(`len(range(start, stop, step))`); `0` for `step = 0` (Python raises there). -/
def pyRangeLen (start stop stepv : Int) : Nat :=
  if 0 < stepv then (((stop - start) + stepv - 1) / stepv).toNat
  else if stepv < 0 then (((start - stop) + (-stepv) - 1) / (-stepv)).toNat
  else 0

/-- The materialized sequence `numpy.r_[start:stop:step]` for already
normalized bounds, i.e. Python's `range(start, stop, step)`. -/
def pyRangeList (start stop stepv : Int) : List Int :=
  (List.range (pyRangeLen start stop stepv)).map (fun i => start + stepv * i)

/-- The `start` component of CPython's `slice.indices(b)` normalization. -/
def sliceNormStart (b : Nat) (stepv : Int) : Option Int → Int
  | none => if stepv < 0 then (b : Int) - 1 else 0
  | some s =>
    let s' := if s < 0 then s + b else s
    if s' < 0 then (if stepv < 0 then -1 else 0)
    else if (b : Int) ≤ s' then (if stepv < 0 then (b : Int) - 1 else b) else s'

/-- The `stop` component of CPython's `slice.indices(b)` normalization. -/
def sliceNormStop (b : Nat) (stepv : Int) : Option Int → Int
  | none => if stepv < 0 then -1 else (b : Int)
  | some t =>
    let t' := if t < 0 then t + b else t
    if t' < 0 then (if stepv < 0 then -1 else 0)
    else if (b : Int) ≤ t' then (if stepv < 0 then (b : Int) - 1 else b) else t'

/-- One axis of `Param._expand_index`: turns the axis component into its
explicit list of integer positions against axis length `b` (full slices and
`Ellipsis` become `0..b-1`; slices are materialized through `slice.indices`;
negative entries of lists and scalars are wrapped by adding `b`). -/
def expandComp (b : Nat) : PyIdx → List Int
  | PyIdx.ellipsis => (List.range b).map Int.ofNat
  | PyIdx.slc s t st =>
      let stepv := st.getD 1
      pyRangeList (sliceNormStart b stepv s) (sliceNormStop b stepv t) stepv
  | PyIdx.arr l => l.map (fun x => if x < 0 then (b : Int) + x else x)
  | PyIdx.num i => [if i < 0 then (b : Int) + i else i]

/-- `itertools.izip_longest(slice_index[:realndim], realshape,
fillvalue=slice(self.size))` padding/truncation of the slice tuple. -/
def padTrunc (si : List PyIdx) (ndim fullSize : Nat) : List PyIdx :=
  si.take ndim ++ List.replicate (ndim - si.length) (PyIdx.slc none (some (fullSize : Int)) none)

/-- `Param._expand_index`: per-axis expanded integer position lists. -/
def expandIndexF (shape : List Nat) (si : List PyIdx) : List (List Int) :=
  List.zipWith (fun a b => expandComp b a) (padTrunc si shape.length shape.prod) shape

/-- `itertools.product(*pools)` as documented: start from the empty tuple and
extend by one pool at a time. -/
def pyProduct (pools : List (List Int)) : List (List Int) :=
  pools.foldl (fun result pool => result.flatMap (fun x => pool.map (fun y => x ++ [y]))) [[]]

/-- Specification-side cartesian product in row-major, last-axis-fastest
order (the leftmost axis is outermost, the rightmost varies fastest). -/
def cartProd : List (List Int) → List (List Int)
  | [] => [[]]
  | l :: ls => l.flatMap (fun x => (cartProd ls).map (x :: ·))

/-- `itertools.izip(*cols)` consumed for `count` steps by `numpy.fromiter`:
produce rows of the positional zip of the columns, stopping when any column
is exhausted or after `count` rows. -/
def pyIzipAux : Nat → List (List Int) → List (List Int)
  | 0, _ => []
  | count + 1, cols =>
    if cols.isEmpty || cols.any List.isEmpty then []
    else (cols.map (·.headD 0)) :: pyIzipAux count (cols.map List.tail)

/-- The fancy branch of `Param._indices`: `numpy.fromiter(izip(*clean),
count=len(clean[0]))`. -/
def pyIzip (cols : List (List Int)) : List (List Int) :=
  pyIzipAux (cols.headD []).length cols

/-- Specification-side positional element-wise zip of equal-length columns. -/
def specZipRows (cols : List (List Int)) (k : Nat) : List (List Int) :=
  (List.range k).map (fun j => cols.map (fun c => c.getD j 0))

/-- Is the component an explicit list/array component
(`isinstance(n, (numpy.ndarray, list, tuple))`)? -/
def isArrIdx : PyIdx → Bool
  | PyIdx.arr _ => true
  | _ => false

/-- The integer list carried by an `arr` component. -/
def arrOf : PyIdx → List Int
  | PyIdx.arr l => l
  | _ => []

/-- `len(set(map(len, clean_curr_slice))) <= 1`: all component lists share one
length (vacuously true for the empty tuple). -/
def lensAllEq (clean : List PyIdx) : Bool :=
  match clean.map (fun s => (arrOf s).length) with
  | [] => true
  | k :: ks => ks.all (· = k)

/-- The cleaned slice tuple of `Param._indices`: components equal to
`Ellipsis` are dropped. -/
def cleanOf (si : List PyIdx) : List PyIdx :=
  si.filter (fun s => decide (s ≠ PyIdx.ellipsis))

/-- The condition guarding the fancy (paired) branch of `Param._indices`:
every cleaned component is an explicit list and all lists share one length. -/
def fancyCond (clean : List PyIdx) : Bool :=
  clean.all isArrIdx && lensAllEq clean

/-- `Param._indices`: the element-coordinate enumeration of a view
expression.  `none` models the exceptions `numpy.fromiter` raises in the
fancy branch when the tuple arity does not match `_realndim_` (or the tuple
is all-`Ellipsis`, where `clean_curr_slice[0]` raises `IndexError`). -/
def indicesF (shape : List Nat) (si : List PyIdx) : Option (List (List Int)) :=
  let clean := cleanOf si
  if fancyCond clean then
    if clean.length = shape.length ∧ clean ≠ [] then
      some (pyIzip (clean.map arrOf))
    else none
  else
    some (pyProduct (expandIndexF shape si))

/-- `numpy.cumprod`. -/
def cumprodF (l : List Int) : List Int :=
  (l.scanl (· * ·) 1).tail

/-- `extended_realshape = numpy.cumprod((1,) + self._realshape_[:0:-1])[::-1]`:
the row-major strides of the backing shape (`strides[i] = prod shape[i+1:]`). -/
def stridesOf (shape : List Nat) : List Int :=
  (cumprodF ((1 : Int) :: ((shape.drop 1).reverse.map Int.ofNat))).reverse

/-- `numpy.sum(extended_realshape * x)` for one coordinate row `x`. -/
def ravelCoordF (strides c : List Int) : Int :=
  (List.zipWith (· * ·) strides c).sum

/-- `Param._raveled_index`: the absolute offsets (into the flattened backing
buffer) of the elements enumerated by `_indices`. -/
def raveledIndexF (shape : List Nat) (si : List PyIdx) : Option (List Int) :=
  (indicesF shape si).map (fun l => l.map (ravelCoordF (stridesOf shape)))

/-- Physical position denoted by a coordinate row under numpy semantics:
negative positions count from the end of the axis. -/
def physCoord (shape : List Nat) (c : List Int) : List Int :=
  List.zipWith (fun (b : Nat) (x : Int) => if x < 0 then (b : Int) + x else x) shape c

/-- The set of physical elements denoted by an enumerated coordinate list. -/
def physSet (shape : List Nat) (l : List (List Int)) : Finset (List Int) :=
  (l.map (physCoord shape)).toFinset

/-! ### Lemmas about the index enumeration -/

lemma foldl_prodStep (pools : List (List Int)) :
    ∀ acc : List (List Int),
      pools.foldl (fun result pool => result.flatMap (fun x => pool.map (fun y => x ++ [y]))) acc
        = acc.flatMap (fun x => (cartProd pools).map (x ++ ·)) := by
  induction pools with
  | nil =>
      intro acc
      simp [cartProd]
  | cons pool ps ih =>
      intro acc
      rw [List.foldl_cons, ih]
      simp only [cartProd, List.flatMap_assoc, List.flatMap_map, List.map_flatMap,
        List.map_map, Function.comp_def, List.append_assoc, List.singleton_append]

lemma pyProduct_eq_cartProd (pools : List (List Int)) :
    pyProduct pools = cartProd pools := by
  rw [pyProduct, foldl_prodStep]
  simp

lemma mem_cartProd_length {pools : List (List Int)} {c : List Int}
    (hc : c ∈ cartProd pools) : c.length = pools.length := by
  induction pools generalizing c with
  | nil =>
      simp only [cartProd, List.mem_singleton] at hc
      subst hc; rfl
  | cons pool ps ih =>
      simp only [cartProd, List.mem_flatMap, List.mem_map] at hc
      obtain ⟨x, -, t, ht, rfl⟩ := hc
      simp [ih ht]

lemma getD_zero_eq_headD (c : List Int) : c.getD 0 0 = c.headD 0 := by
  cases c <;> rfl

lemma getD_succ_eq_tail_getD (c : List Int) (j : Nat) : c.getD (j + 1) 0 = c.tail.getD j 0 := by
  cases c <;> rfl

lemma pyIzipAux_eq_specZipRows :
    ∀ (k : Nat) (cols : List (List Int)), cols ≠ [] →
      (∀ c ∈ cols, c.length = k) →
      pyIzipAux k cols = specZipRows cols k := by
  intro k
  induction k with
  | zero =>
      intro cols _ _
      simp [pyIzipAux, specZipRows]
  | succ k ih =>
      intro cols hne hlen
      have hno : cols.isEmpty = false := by
        cases cols with
        | nil => exact absurd rfl hne
        | cons c cs => rfl
      have hnoz : cols.any List.isEmpty = false := by
        simp only [List.any_eq_false]
        intro c hc
        have := hlen c hc
        cases c with
        | nil => simp at this
        | cons x xs => simp
      rw [pyIzipAux, hno, hnoz]
      simp only [Bool.or_self, Bool.false_or, if_neg Bool.false_ne_true]
      have htail : pyIzipAux k (cols.map List.tail) = specZipRows (cols.map List.tail) k := by
        apply ih
        · intro hmap
          exact hne (List.map_eq_nil_iff.mp hmap)
        · intro c hc
          rw [List.mem_map] at hc
          obtain ⟨d, hd, rfl⟩ := hc
          have := hlen d hd
          simp [List.length_tail, this]
      rw [htail]
      simp only [specZipRows, List.range_succ_eq_map, List.map_cons, List.map_map]
      congr 1
      · exact List.map_congr_left (fun c _ => (getD_zero_eq_headD c).symm)
      · apply List.map_congr_left
        intro j _
        simp only [Function.comp_def, List.map_map]
        apply List.map_congr_left
        intro c _
        exact (getD_succ_eq_tail_getD c j).symm

lemma mem_pyIzipAux_length :
    ∀ (k : Nat) (cols : List (List Int)) (c : List Int),
      c ∈ pyIzipAux k cols → c.length = cols.length := by
  intro k
  induction k with
  | zero => intro cols c hc; simp [pyIzipAux] at hc
  | succ k ih =>
      intro cols c hc
      rw [pyIzipAux] at hc
      by_cases hg : (cols.isEmpty || cols.any List.isEmpty) = true
      · rw [if_pos hg] at hc; simp at hc
      · rw [if_neg hg] at hc
        rcases List.mem_cons.mp hc with rfl | hc
        · simp
        · have := ih (cols.map List.tail) c hc
          simpa using this

lemma lensAllEq_spec {clean : List PyIdx} (h : lensAllEq clean = true) :
    ∀ s ∈ clean, (arrOf s).length = ((clean.map arrOf).headD []).length := by
  cases clean with
  | nil => intro s hs; cases hs
  | cons a rest =>
      simp only [lensAllEq, List.map_cons, List.all_eq_true, List.mem_map,
        decide_eq_true_eq, forall_exists_index, and_imp] at h
      intro s hs
      rcases List.mem_cons.mp hs with rfl | hs
      · rfl
      · exact h ((fun t => (arrOf t).length) s) s hs rfl

lemma padTrunc_length (si : List PyIdx) (n f : Nat) : (padTrunc si n f).length = n := by
  simp only [padTrunc, List.length_append, List.length_take, List.length_replicate]
  omega

lemma expandIndexF_length (shape : List Nat) (si : List PyIdx) :
    (expandIndexF shape si).length = shape.length := by
  simp [expandIndexF, padTrunc_length]

lemma indicesF_row_length {shape : List Nat} {si : List PyIdx} {l : List (List Int)}
    (h : indicesF shape si = some l) : ∀ c ∈ l, c.length = shape.length := by
  unfold indicesF at h
  by_cases hf : fancyCond (cleanOf si) = true
  · rw [if_pos hf] at h
    by_cases harity : (cleanOf si).length = shape.length ∧ cleanOf si ≠ []
    · rw [if_pos harity] at h
      injection h with h
      subst h
      intro c hc
      have := mem_pyIzipAux_length _ _ _ hc
      simpa [harity.1] using this
    · rw [if_neg harity] at h
      cases h
  · rw [if_neg hf] at h
    injection h with h
    subst h
    intro c hc
    rw [pyProduct_eq_cartProd] at hc
    rw [mem_cartProd_length hc, expandIndexF_length]

lemma physCoord_of_nonneg :
    ∀ (shape : List Nat) (c : List Int),
      c.length = shape.length → (∀ x ∈ c, 0 ≤ x) → physCoord shape c = c := by
  intro shape
  induction shape with
  | nil =>
      intro c hlen _
      cases c with
      | nil => rfl
      | cons x xs => simp at hlen
  | cons b bs ih =>
      intro c hlen hnn
      cases c with
      | nil => simp at hlen
      | cons x xs =>
          have hx : ¬ x < 0 := not_lt.mpr (hnn x (List.mem_cons_self x xs))
          simp only [physCoord, List.zipWith_cons_cons, if_neg hx]
          have := ih xs (by simpa using hlen) (fun y hy => hnn y (List.mem_cons_of_mem _ hy))
          rw [physCoord] at this
          rw [this]

lemma toFinset_map_of_toFinset_eq {l1 l2 : List (List Int)} (f : List Int → Int)
    (h : l1.toFinset = l2.toFinset) : (l1.map f).toFinset = (l2.map f).toFinset := by
  have hmem : ∀ a, a ∈ l1 ↔ a ∈ l2 := by
    intro a
    rw [← List.mem_toFinset, h, List.mem_toFinset]
  ext x
  simp only [List.mem_toFinset, List.mem_map]
  constructor
  · rintro ⟨a, ha, rfl⟩
    exact ⟨a, (hmem a).mp ha, rfl⟩
  · rintro ⟨a, ha, rfl⟩
    exact ⟨a, (hmem a).mpr ha, rfl⟩

/-! ### Claim C1 -/

/-- C1 (counterexample): on a backing buffer of shape `[5]`, the expressions
`p[[-1]]` (fancy list) and `p[-1]` (scalar) denote the same physical element
(the last one), yet `_raveled_index` returns offset `-1` for the first and
`4` for the second: the fancy branch of `_indices` does not normalize
negative entries, so the raveled-offset set is not
representation-independent. -/
theorem raveled_offsets_differ_on_equal_physical_elements :
    indicesF [5] [PyIdx.arr [-1]] = some [[-1]] ∧
    indicesF [5] [PyIdx.num (-1)] = some [[4]] ∧
    physSet [5] [[-1]] = physSet [5] [[4]] ∧
    (raveledIndexF [5] [PyIdx.arr [-1]]).map List.toFinset ≠
      (raveledIndexF [5] [PyIdx.num (-1)]).map List.toFinset := by
  decide

/-- C1 (amended): for index expressions whose enumerated coordinates contain
no negative entries, the raveled offsets computed by `_raveled_index` depend
only on the set of physical elements denoted: if two expressions denote the
same physical element set, their offset sets coincide. -/
theorem raveledIndex_representation_independent
    (shape : List Nat) (e1 e2 : List PyIdx) (l1 l2 : List (List Int))
    (h1 : indicesF shape e1 = some l1) (h2 : indicesF shape e2 = some l2)
    (hn1 : ∀ c ∈ l1, ∀ x ∈ c, 0 ≤ x) (hn2 : ∀ c ∈ l2, ∀ x ∈ c, 0 ≤ x)
    (hsame : physSet shape l1 = physSet shape l2) :
    (raveledIndexF shape e1).map List.toFinset =
      (raveledIndexF shape e2).map List.toFinset := by
  have hm1 : l1.map (physCoord shape) = l1 := by
    have := List.map_congr_left
      (fun c hc => physCoord_of_nonneg shape c (indicesF_row_length h1 c hc) (hn1 c hc))
    rw [this]; simp
  have hm2 : l2.map (physCoord shape) = l2 := by
    have := List.map_congr_left
      (fun c hc => physCoord_of_nonneg shape c (indicesF_row_length h2 c hc) (hn2 c hc))
    rw [this]; simp
  have ht : l1.toFinset = l2.toFinset := by
    have := hsame
    unfold physSet at this
    rwa [hm1, hm2] at this
  unfold raveledIndexF
  rw [h1, h2]
  simp only [Option.map_some']
  rw [toFinset_map_of_toFinset_eq _ ht]

/-- C1 (witness): the amended theorem applied to the spec's own example,
`p[2:5]` versus `p[[2,3,4]]` on a length-10 buffer. -/
theorem raveledIndex_representation_independent_witness :
    (raveledIndexF [10] [PyIdx.slc (some 2) (some 5) none]).map List.toFinset =
      (raveledIndexF [10] [PyIdx.arr [2, 3, 4]]).map List.toFinset :=
  raveledIndex_representation_independent [10] _ _ [[2], [3], [4]] [[2], [3], [4]]
    (by decide) (by decide) (by decide) (by decide) (by decide)

/-! ### Claim C3 -/

/-- C3: the element-coordinate enumeration of `Param._indices` is the
cartesian product, in row-major last-axis-fastest order, of the per-axis
expanded index lists — except when every (non-`Ellipsis`) component of the
expression is an explicit integer list and all lists share one length, in
which case it is the positional element-wise zip of those lists. -/
theorem indices_zip_vs_cartesian (shape : List Nat) (si : List PyIdx) :
    (fancyCond (cleanOf si) = true → (cleanOf si).length = shape.length →
      cleanOf si ≠ [] →
      indicesF shape si =
        some (specZipRows ((cleanOf si).map arrOf)
          (((cleanOf si).map arrOf).headD []).length)) ∧
    (fancyCond (cleanOf si) = false →
      indicesF shape si = some (cartProd (expandIndexF shape si))) := by
  constructor
  · intro hf hlen hne
    unfold indicesF
    rw [if_pos hf, if_pos ⟨hlen, hne⟩]
    congr 1
    unfold pyIzip
    have hlens : lensAllEq (cleanOf si) = true := by
      rw [fancyCond, Bool.and_eq_true] at hf
      exact hf.2
    apply pyIzipAux_eq_specZipRows
    · intro hmap
      exact hne (List.map_eq_nil_iff.mp hmap)
    · intro c hc
      rw [List.mem_map] at hc
      obtain ⟨s, hs, rfl⟩ := hc
      exact lensAllEq_spec hlens s hs
  · intro hf
    unfold indicesF
    rw [if_neg (by rw [hf]; exact Bool.false_ne_true), pyProduct_eq_cartProd]

/-- C3 (witness): the fancy case on `p[[0,2],[1,0]]` over shape `[3,3]` and
the cartesian case on `p[0:2]` over shape `[3]`. -/
theorem indices_zip_vs_cartesian_witness :
    indicesF [3, 3] [PyIdx.arr [0, 2], PyIdx.arr [1, 0]] =
      some (specZipRows ((cleanOf [PyIdx.arr [0, 2], PyIdx.arr [1, 0]]).map arrOf)
        (((cleanOf [PyIdx.arr [0, 2], PyIdx.arr [1, 0]]).map arrOf).headD []).length) ∧
    indicesF [3] [PyIdx.slc (some 0) (some 2) none] =
      some (cartProd (expandIndexF [3] [PyIdx.slc (some 0) (some 2) none])) :=
  ⟨(indices_zip_vs_cartesian [3, 3] [PyIdx.arr [0, 2], PyIdx.arr [1, 0]]).1
      (by decide) (by decide) (by decide),
   (indices_zip_vs_cartesian [3] [PyIdx.slc (some 0) (some 2) none]).2 (by decide)⟩

/-! ### Tie propagation machinery

Model of the mutable state the tie operations act on.  Buffers are kept in
raveled (flat) order; this matches the code, which stores listener offset
sets as raveled indices and evaluates `val[ind]` with `val = self.base` and
`ind` a list of raveled offsets.  A view of a parameter is represented by
the parent index of its original together with the raveled offsets its
`_current_slice_` denotes (views obtained by indexing share `_tied_to_me_`,
`base` and `_parent_index_` with their original through
`__array_finalize__`).  Offset sets (`set(...)` of small ints in CPython)
are carried as sorted duplicate-free lists, matching `list(ind)` order.
Calls to the external owner (`parameters_changed`) and entries into
`_fire_changed` are recorded as events.
-/

/-- A tie listener: the view object stored as key of `_tied_to_me_`. -/
structure Listener where
  lpid : Nat
  lOffsets : List Nat
deriving DecidableEq, Repr

/-- One original parameter as the owner stores it: its flat buffer, its
shape, its name, its `_tied_to_me_` dictionary (listener view, set of
raveled offsets of this parameter) and its `_tied_to_` list. -/
structure PState where
  buf : List Int
  shape : List Nat
  pname : String
  tiedToMe : List (Listener × List Nat)
  tiedTo : List Nat
deriving DecidableEq, Repr

/-- The owner's registry: parameters by parent index, plus the fixed set
(modelled from the spec, see `setFixedF`). -/
structure Model where
  params : Nat → PState
  fixedSet : List Nat

/-- Externally observable calls. -/
inductive Event where
  | fired (pid : Nat)
  | paramsChanged
deriving DecidableEq, Repr

def getP (m : Model) (pid : Nat) : PState := m.params pid

def setP (m : Model) (pid : Nat) (ps : PState) : Model :=
  { m with params := fun j => if j = pid then ps else m.params j }

def setBuf (m : Model) (pid : Nat) (b : List Int) : Model :=
  setP m pid { getP m pid with buf := b }

/-- numpy gather `val[ind]` for a flat buffer and raveled offsets. -/
def gatherOffs (buf : List Int) (offs : List Nat) : List Int :=
  offs.map (fun i => buf.getD i 0)

/-- Broadcast a value list to length `n` (numpy assignment/compare semantics
for the shapes the tie machinery produces: equal length, or a one-element
source broadcast everywhere). -/
def bcast (n : Nat) (v : List Int) : List Int :=
  if v.length = 1 then List.replicate n (v.headD 0) else v

/-- numpy scatter `buf[offs] = vals` on a flat buffer: sequential element
writes, broadcasting a one-element value list. -/
def scatterOffs (buf : List Int) (offs : List Nat) (vals : List Int) : List Int :=
  ((offs.zip (bcast offs.length vals)).foldl (fun b p => b.set p.1 p.2) buf)

/-- `numpy.all(xs == ys)` with broadcasting. -/
def pyAllEq (xs ys : List Int) : Bool :=
  let n := max xs.length ys.length
  bcast n xs == bcast n ys

/-- `Param._fire_changed`: for every `(tied, ind)` pair in `_tied_to_me_`,
call `tied._on_change(self.base, list(ind))`.  The body of `_on_change` is
inlined (see `onChangeF`, which restates it), with `fuel` bounding the
depth of the propagation cascade: the source recursion is unbounded.  The
event `Event.fired pid` records that `_fire_changed` was entered. -/
def fireChangedF : Nat → Model → Nat → Model × List Event
  | 0, m, pid => (m, [Event.fired pid])
  | fuel + 1, m, pid =>
    ((getP m pid).tiedToMe).foldl
      (fun acc e =>
        let val := (getP acc.1 pid).buf
        let cur := gatherOffs (getP acc.1 e.1.lpid).buf e.1.lOffsets
        let nv := gatherOffs val e.2
        if pyAllEq cur nv then acc
        else
          let m1 := setBuf acc.1 e.1.lpid
            (scatterOffs (getP acc.1 e.1.lpid).buf e.1.lOffsets nv)
          let r2 := fireChangedF fuel m1 e.1.lpid
          let r4 := fireChangedF fuel r2.1 e.1.lpid
          (r4.1, acc.2 ++ r2.2 ++ [Event.paramsChanged] ++ r4.2))
      (m, [Event.fired pid])

/-- `Param._on_change(val, ind)`: if the listener's current elements already
equal `val[ind]`, do nothing; otherwise write `val[ind]` through the
original-routed path (that write is a `Param.__setitem__`, so it fires the
original's `_fire_changed` and the owner's `parameters_changed`) and then
fire the listener's own `_fire_changed` (the shared `_tied_to_me_` of its
original). -/
def onChangeF (fuel : Nat) (m : Model) (l : Listener) (srcOffs : List Nat)
    (val : List Int) : Model × List Event :=
  let cur := gatherOffs (getP m l.lpid).buf l.lOffsets
  let nv := gatherOffs val srcOffs
  if pyAllEq cur nv then (m, [])
  else
    let m1 := setBuf m l.lpid (scatterOffs (getP m l.lpid).buf l.lOffsets nv)
    let r2 := fireChangedF fuel m1 l.lpid
    let r4 := fireChangedF fuel r2.1 l.lpid
    (r4.1, r2.2 ++ [Event.paramsChanged] ++ r4.2)

/-- `Param.__setitem__`: perform the raw element write, then call
`_fire_changed()` and `self._parent_.parameters_changed()`. -/
def setItemE (fuel : Nat) (m : Model) (pid : Nat) (offs : List Nat)
    (vals : List Int) : Model × List Event :=
  let m1 := setBuf m pid (scatterOffs (getP m pid).buf offs vals)
  let r := fireChangedF fuel m1 pid
  (r.1, r.2 ++ [Event.paramsChanged])

/-- `self[:] = vals` on a full original parameter. -/
def setFullE (fuel : Nat) (m : Model) (pid : Nat) (vals : List Int) :
    Model × List Event :=
  setItemE fuel m pid (List.range (getP m pid).buf.length) vals

/-- `Param._add_tie_listener(tied_to_me)`:
`self._tied_to_me_[tied_to_me] |= set(self._raveled_index())` with a
`ParamDict(set)` default of the empty set for a missing key. -/
def addListenerF (m : Model) (srcPid : Nat) (l : Listener) (offs : List Nat) : Model :=
  let ps := getP m srcPid
  let entries := ps.tiedToMe
  let entries' :=
    if entries.any (fun e => e.1 = l) then
      entries.map (fun e => if e.1 = l then (e.1, e.2 ∪ offs) else e)
    else entries ++ [(l, offs)]
  setP m srcPid { ps with tiedToMe := entries' }

/-- Modelled from the spec: the owner's fixed-flag registry
(`self._parent_._set_fixed(self)`; `Parameterized` is not under `src/`).
Marking fixed records the parameter's parent index in the owner's set. -/
def setFixedF (m : Model) (pid : Nat) : Model :=
  { m with fixedSet := pid :: m.fixedSet }

/-- The argument passed to `tie_to`: either a `Param` (identified by its
parent index in the owner) or some other object of a named class. -/
inductive TieArg where
  | param (pid : Nat)
  | notParam (cls : String)
deriving DecidableEq, Repr

/-- Failures of `tie_to`: the `AssertionError` raised when the argument is
not a `Param` (carrying the offending class name), and the `ValueError`
re-raised on broadcast failure (carrying, as the message does, both names
and both shapes: `"Trying to tie {} with shape {} to {} with shape {}"`). -/
inductive TieError where
  | typeMismatch (cls : String)
  | shapeMismatch (selfName : String) (selfShape : List Nat)
      (otherName : String) (otherShape : List Nat)
deriving DecidableEq, Repr

/-- Can values of shape `src` be broadcast-assigned into a target of shape
`tgt` (numpy assignment broadcasting)? -/
def broadcastableTo (src tgt : List Nat) : Bool :=
  (List.zipWith (fun s t => s == t || s == 1) src.reverse tgt.reverse).all id
    && (src.reverse.drop tgt.length).all (· == 1)

/-- `Param.tie_to(param)` for a full original parameter `selfPid`:
assert the argument is a `Param`; copy its value into self's storage
(`self[:] = param`, a `__setitem__`, re-raising broadcast failure as the
`ValueError` modelled by `TieError.shapeMismatch`); append `param` to the
original's `_tied_to_`; register self as listener on `param` for
`param`'s raveled offsets; mark self fixed in the owner's registry. -/
def tieToF (fuel : Nat) (m : Model) (selfPid : Nat) (arg : TieArg) :
    Except TieError (Model × List Event) :=
  match arg with
  | TieArg.notParam cls => Except.error (TieError.typeMismatch cls)
  | TieArg.param q =>
    let ps := getP m selfPid
    let qs := getP m q
    if broadcastableTo qs.shape ps.shape then
      let r1 := setItemE fuel m selfPid (List.range ps.buf.length) qs.buf
      let m2 := setP r1.1 selfPid
        { getP r1.1 selfPid with tiedTo := (getP r1.1 selfPid).tiedTo ++ [q] }
      let m3 := addListenerF m2 q
        (Listener.mk selfPid (List.range ps.buf.length))
        (List.range qs.buf.length)
      Except.ok (setFixedF m3 selfPid, r1.2)
    else Except.error (TieError.shapeMismatch ps.pname ps.shape qs.pname qs.shape)

/-- `Param._remove_tie_listener(to_remove)`: iterate the keys `t` of
`self._tied_to_me_` and, whenever `t._parent_index_` equals
`self._parent_index_` (the source compares against SELF's parent index; the
`to_remove` argument is never consulted), intersect the stored offset set
with `t._raveled_index()` and drop the entry if it became empty. -/
def removeTieListenerF (m : Model) (selfPid toRemove : Nat) : Model :=
  let ps := getP m selfPid
  let keep := fun (e : Listener × List Nat) =>
    if e.1.lpid = selfPid then
      let offs' := e.2.inter e.1.lOffsets
      if offs'.isEmpty then none else some (e.1, offs')
    else some e
  setP m selfPid { ps with tiedToMe := ps.tiedToMe.filterMap keep }

/-- `Param.untie(*ties)` for a full original parameter: first run
`[t._remove_tie_listener(self) for t in self._tied_to_]`; then evaluate the
retention comprehension, whose filter calls the two-argument local function
`set_index` with a single argument — so the comprehension raises
`TypeError` at the first pair with matching parent indices, leaving
`_tied_to_` unchanged and `_set_unfixed` unreached.  The second component
reports normal completion or the raised error. -/
def untieF (m : Model) (selfPid : Nat) (ties : List Nat) :
    Model × Except String Unit :=
  let ps := getP m selfPid
  let m1 := ps.tiedTo.foldl (fun acc t => removeTieListenerF acc t selfPid) m
  if ps.tiedTo.any (fun t => ties.any (fun u => t = u)) then
    (m1, Except.error "TypeError: set_index takes exactly 2 arguments, 1 given")
  else
    let m2 := setP m1 selfPid { getP m1 selfPid with tiedTo := [] }
    ({ m2 with fixedSet := m2.fixedSet.erase selfPid }, Except.ok ())

/-! ### Lemmas about the tie machinery -/

lemma getP_setP_self (m : Model) (pid : Nat) (ps : PState) :
    getP (setP m pid ps) pid = ps := by
  simp [getP, setP]

lemma getP_setP_ne (m : Model) (pid j : Nat) (ps : PState) (h : j ≠ pid) :
    getP (setP m pid ps) j = getP m j := by
  simp [getP, setP, h]

lemma getP_setBuf_self (m : Model) (pid : Nat) (b : List Int) :
    getP (setBuf m pid b) pid = { getP m pid with buf := b } := by
  simp [setBuf, getP_setP_self]

lemma getP_setBuf_ne (m : Model) (pid j : Nat) (b : List Int) (h : j ≠ pid) :
    getP (setBuf m pid b) j = getP m j := by
  simp [setBuf, getP_setP_ne _ _ _ _ h]

lemma getP_setFixedF (m : Model) (pid j : Nat) :
    getP (setFixedF m pid) j = getP m j := rfl

lemma getP_addListenerF_ne (m : Model) (srcPid : Nat) (l : Listener)
    (offs : List Nat) (j : Nat) (h : j ≠ srcPid) :
    getP (addListenerF m srcPid l offs) j = getP m j := by
  unfold addListenerF
  exact getP_setP_ne _ _ _ _ h

lemma getP_addListenerF_self_of_empty (m : Model) (srcPid : Nat) (l : Listener)
    (offs : List Nat) (h : (getP m srcPid).tiedToMe = []) :
    getP (addListenerF m srcPid l offs) srcPid
      = { getP m srcPid with tiedToMe := [(l, offs)] } := by
  simp [addListenerF, h, getP_setP_self]

lemma gather_range (buf : List Int) :
    gatherOffs buf (List.range buf.length) = buf := by
  apply List.ext_getElem
  · simp [gatherOffs]
  · intro i h1 h2
    simp [gatherOffs, List.getD_eq_getElem, List.getElem?_eq_getElem h2]

lemma bcast_length (n : Nat) (v : List Int) (hv : v.length = n ∨ v.length = 1) :
    (bcast n v).length = n := by
  unfold bcast
  by_cases h1 : v.length = 1
  · simp [h1]
  · rw [if_neg h1]
    rcases hv with h | h
    · exact h
    · exact absurd h h1

lemma bcast_of_length_eq {n : Nat} {v : List Int} (h : v.length = n) :
    bcast n v = v := by
  unfold bcast
  by_cases h1 : v.length = 1
  · rw [if_pos h1]
    cases v with
    | nil => simp at h1
    | cons x xs =>
        cases xs with
        | nil =>
            have hn : n = 1 := by rw [← h]; rfl
            subst hn
            rfl
        | cons y ys => simp at h1
  · rw [if_neg h1]

lemma foldl_set_shift :
    ∀ (l : List (Nat × Int)) (x : Int) (b : List Int),
      (List.map (Prod.map Nat.succ id) l).foldl (fun acc p => acc.set p.1 p.2) (x :: b)
        = x :: l.foldl (fun acc p => acc.set p.1 p.2) b := by
  intro l
  induction l with
  | nil => intro x b; rfl
  | cons p l ih =>
      intro x b
      cases p with
      | mk i v =>
          simp only [List.map_cons, List.foldl_cons, Prod.map]
          exact ih x (b.set i v)

lemma foldl_set_zip_range :
    ∀ (ws buf : List Int), ws.length = buf.length →
      ((List.range buf.length).zip ws).foldl (fun b p => b.set p.1 p.2) buf = ws := by
  intro ws
  induction ws with
  | nil =>
      intro buf h
      cases buf with
      | nil => rfl
      | cons b bs => simp at h
  | cons w ws ih =>
      intro buf h
      cases buf with
      | nil => simp at h
      | cons b bs =>
          rw [List.length_cons, List.range_succ_eq_map, List.zip_cons_cons,
            List.foldl_cons]
          show ((List.map Nat.succ (List.range bs.length)).zip ws).foldl
            (fun b p => b.set p.1 p.2) (w :: bs) = w :: ws
          have hz : (List.map Nat.succ (List.range bs.length)).zip ws
              = List.map (Prod.map Nat.succ id) ((List.range bs.length).zip ws) :=
            List.zip_map_left _ _ _
          rw [hz, foldl_set_shift, ih bs (by simpa using h)]

lemma scatter_length (buf : List Int) (offs : List Nat) (vals : List Int) :
    (scatterOffs buf offs vals).length = buf.length := by
  unfold scatterOffs
  generalize offs.zip (bcast offs.length vals) = l
  induction l generalizing buf with
  | nil => rfl
  | cons p l ih => simp [List.foldl_cons, ih]

lemma scatter_full (buf vals : List Int) (n : Nat) (hb : buf.length = n)
    (hv : vals.length = n ∨ vals.length = 1) :
    scatterOffs buf (List.range n) vals = bcast n vals := by
  subst hb
  unfold scatterOffs
  rw [List.length_range]
  exact foldl_set_zip_range _ _ (bcast_length _ _ hv)

lemma fireChangedF_no_listeners (fuel : Nat) (m : Model) (pid : Nat)
    (h : (getP m pid).tiedToMe = []) :
    fireChangedF fuel m pid = (m, [Event.fired pid]) := by
  cases fuel with
  | zero => rfl
  | succ fuel => rw [fireChangedF, h]; rfl

/-! ### Claim C6 -/

/-- C6: `Param._on_change(val, ind)` is a no-op when the listener's
addressed elements already equal `val` at the given offsets: the state is
unchanged and no events are emitted — no write, no `_fire_changed`, no
recursion (this equality test is the only cycle guard the code has). -/
theorem onchange_equal_is_noop (fuel : Nat) (m : Model) (l : Listener)
    (srcOffs : List Nat) (val : List Int)
    (h : gatherOffs (getP m l.lpid).buf l.lOffsets = gatherOffs val srcOffs) :
    onChangeF fuel m l srcOffs val = (m, []) := by
  unfold onChangeF
  rw [h]
  simp [pyAllEq]

def c6m : Model :=
  ⟨fun _ => ⟨[5], [1], "P", [], []⟩, []⟩

/-- C6 (witness): a parameter whose single element already equals the
propagated value is left untouched. -/
theorem onchange_equal_is_noop_witness :
    onChangeF 3 c6m (Listener.mk 0 [0]) [0] [5] = (c6m, []) :=
  onchange_equal_is_noop 3 c6m (Listener.mk 0 [0]) [0] [5] (by decide)

/-! ### Claim C5 -/

def c5m : Model :=
  ⟨fun pid => if pid = 0 then ⟨[0], [1], "A", [], []⟩ else ⟨[5], [1], "B", [], []⟩, []⟩

def c5m1 : Model :=
  ((tieToF 2 c5m 0 (TieArg.param 1)).toOption.getD (c5m, [])).1

/-- C5 (code bug evidence): after `A.tie_to(B)` (parameters `0` and `1`),
`A.untie(B)` raises `TypeError` (the retention filter calls the two-argument
local `set_index` with one argument) and, because `_remove_tie_listener`
compares listener parent indices against B's own parent index instead of
`to_remove`'s, B's listener set still contains A; a subsequent write
`B[:] = 7` therefore still overwrites A (`[5]` becomes `[7]`), contradicting
the claim that A is left unchanged after untying. -/
theorem untie_leaves_listener_installed :
    (getP c5m1 0).buf = [5] ∧
    (untieF c5m1 0 [1]).2
      = Except.error "TypeError: set_index takes exactly 2 arguments, 1 given" ∧
    (getP (untieF c5m1 0 [1]).1 1).tiedToMe = [(Listener.mk 0 [0], [0])] ∧
    (getP (setItemE 2 (untieF c5m1 0 [1]).1 1 (List.range 1) [7]).1 0).buf = [7] := by
  refine ⟨by decide, rfl, by decide, by decide⟩

/-! ### ParamConcatenation

`ParamConcatenation.__getitem__` over the flattened concatenation of its
members.  Members are carried as their flattened value lists
(`p.flatten()`); the member slices are the cumulative partition of
`[0, sum of sizes)`.
-/

/-- A flat index expression `s` used in `ind[s] = True`. -/
inductive PySel where
  | nat (i : Nat)
  | slcn (lo hi : Nat)
deriving DecidableEq, Repr

/-- `ind = numpy.zeros(total, dtype=bool); ind[s] = True`. -/
def mkMask (total : Nat) (s : PySel) : List Bool :=
  (List.range total).map (fun j =>
    match s with
    | PySel.nat i => j == i
    | PySel.slcn lo hi => decide (lo ≤ j) && decide (j < hi))

/-- `ind[ps]` for the member slice `[lo, hi)`. -/
def sliceMask (mask : List Bool) (lo hi : Nat) : List Bool :=
  (mask.drop lo).take (hi - lo)

/-- Boolean-mask selection `p.flatten()[mask]`. -/
def applyMask (vals : List Int) (mask : List Bool) : List Int :=
  (vals.zip mask).filterMap (fun p => if p.2 then some p.1 else none)

/-- `self._param_slices_`: cumulative `[start, stop)` pairs. -/
def pcSlices (sizes : List Nat) : List (Nat × Nat) :=
  let cs := sizes.scanl (fun a b => a + b) 0
  cs.zip cs.tail

/-- Result of `ParamConcatenation.__getitem__`: either one member's
selection returned directly (un-wrapped), or a new concatenation. -/
inductive PCResult where
  | single (v : List Int)
  | concat (vs : List (List Int))
deriving DecidableEq, Repr

/-- `ParamConcatenation.__getitem__(s)`: build the boolean mask over the
flattened space, slice it per member, and keep each member's selected
values if `numpy.any(p.flat[ind[ps]])` — the truthiness of the selected
VALUES, i.e. at least one selected value is nonzero; unwrap a single
surviving member. -/
def pcGet (ps : List (List Int)) (s : PySel) : PCResult :=
  let total := (ps.map List.length).sum
  let mask := mkMask total s
  let sel := (ps.zip (pcSlices (ps.map List.length))).filterMap
    (fun pe =>
      let pm := sliceMask mask pe.2.1 pe.2.2
      if (applyMask pe.1 pm).any (fun x => decide (x ≠ 0)) then
        some (applyMask pe.1 pm)
      else none)
  if sel.length = 1 then PCResult.single (sel.headD []) else PCResult.concat sel

/-! ### Claim C8 -/

/-- C8 (code bug evidence): the member filter of
`ParamConcatenation.__getitem__` tests `numpy.any(p.flat[ind[ps]])` — the
truthiness of the selected values — instead of whether any element is
selected.  For a concatenation of the single member `[0]`, `get(0)` selects
the value `0`, the filter drops the member, and the result is an empty
concatenation instead of the member's selection `[0]` unwrapped.  With the
value `1` in the same position the member survives and is unwrapped, showing
the selection depends on the stored values, contradicting the claim. -/
theorem pcget_drops_zero_valued_member :
    pcGet [[0]] (PySel.nat 0) = PCResult.concat [] ∧
    pcGet [[1]] (PySel.nat 0) = PCResult.single [1] ∧
    pcGet [[0], [7]] (PySel.slcn 0 2) = PCResult.single [7] := by
  refine ⟨by decide, by decide, by decide⟩

/-! ### numpy ufunc protocol

`Param.__array_priority__ = -numpy.inf` (line 41) and
`Param.__array_wrap__(out_arr) = out_arr.view(numpy.ndarray)` (lines 71-72).
The ufunc output-wrapping protocol is modelled from numpy's documented
behaviour: the result buffer of a ufunc is handed to the `__array_wrap__`
of the input with the highest `__array_priority__` (the first input on
ties).
-/

/-- Kind of an array-like value: a `Param` or a plain `numpy.ndarray`. -/
inductive NpKind where
  | param
  | plain
deriving DecidableEq, Repr

structure NpVal where
  kind : NpKind
  data : List Int
deriving DecidableEq, Repr

/-- `__array_priority__`: minus infinity for `Param` (`⊥` in `WithBot`),
`0.0` for a plain ndarray. -/
def arrayPriority : NpKind → WithBot Int
  | NpKind.param => ⊥
  | NpKind.plain => (0 : Int)

/-- `__array_wrap__` of each kind applied to a raw ufunc output buffer:
`Param.__array_wrap__` returns `out_arr.view(numpy.ndarray)` — always a
plain ndarray; the plain ndarray wrap is the identity view. -/
def wrapResult : NpKind → List Int → NpVal
  | NpKind.param, out => ⟨NpKind.plain, out⟩
  | NpKind.plain, out => ⟨NpKind.plain, out⟩

/-- Modelled from numpy's documented ufunc protocol: a binary ufunc computes
the raw output and wraps it with the `__array_wrap__` of the
highest-priority input. -/
def npBinop (f : Int → Int → Int) (a b : NpVal) : NpVal :=
  let w := if arrayPriority a.kind < arrayPriority b.kind then b else a
  wrapResult w.kind (List.zipWith f a.data b.data)

/-- Modelled from numpy's documented ufunc protocol: a unary ufunc wraps
its raw output with the input's `__array_wrap__`. -/
def npUnop (f : Int → Int) (a : NpVal) : NpVal :=
  wrapResult a.kind (a.data.map f)

/-! ### Claim C9 -/

/-- C9: arithmetic on a `Param` never yields a `Param`: the result of every
unary or binary ufunc with a `Param` among its inputs is a plain
`numpy.ndarray` (its `__array_wrap__` strips the subclass and its
`__array_priority__` is minus infinity, so it never wins the wrap), and
since no `__setitem__` is involved, no `_fire_changed` or
`parameters_changed` notification can be produced by arithmetic. -/
theorem ufunc_result_never_param (f : Int → Int → Int) (g : Int → Int)
    (a b c : NpVal) (hab : a.kind = NpKind.param ∨ b.kind = NpKind.param)
    (hc : c.kind = NpKind.param) :
    (npBinop f a b).kind = NpKind.plain ∧
    (npUnop g c).kind = NpKind.plain ∧
    arrayPriority NpKind.param = ⊥ := by
  refine ⟨?_, ?_, rfl⟩
  · unfold npBinop
    rcases hab with h | h <;>
      · by_cases hlt : arrayPriority a.kind < arrayPriority b.kind <;>
          simp [hlt, wrapResult] <;> cases b.kind <;> cases a.kind <;> rfl
  · unfold npUnop
    rw [hc]
    rfl

/-- C9 (witness): adding a plain array to a one-element `Param` produces a
plain ndarray. -/
theorem ufunc_result_never_param_witness :
    (npBinop (· + ·) ⟨NpKind.param, [1]⟩ ⟨NpKind.plain, [2]⟩).kind = NpKind.plain ∧
    (npUnop (· - 1) ⟨NpKind.param, [3]⟩).kind = NpKind.plain ∧
    arrayPriority NpKind.param = ⊥ :=
  ufunc_result_never_param (· + ·) (· - 1) ⟨NpKind.param, [1]⟩ ⟨NpKind.plain, [2]⟩
    ⟨NpKind.param, [3]⟩ (Or.inl rfl) rfl

/-! ### The pickle protocol

`Param.__reduce__` stores, next to the ndarray state, the tuple
`(_name_, _parent_, _parent_index_, _gradient_, _current_slice_,
_realshape_, _realsize_, _realndim_)`; `Param.__setstate__` restores the
ndarray state and then `pop()`s the attributes off the end of that tuple.
The tie state (`_tied_to_`, `_tied_to_me_`) and the `_original_` flag are
not part of the state, and the freshly reconstructed object never receives
them (`__array_finalize__` runs with `obj = None` during `_reconstruct`).
Attribute values are heterogeneous Python objects, modelled by `PyObj`.
-/

inductive PyObj where
  | noneV
  | natV (n : Nat)
  | strV (s : String)
  | gradFnV (id : Nat)
  | sliceV (l : List Int)
  | shapeV (l : List Nat)
deriving DecidableEq, Repr

/-- The full attribute state of a `Param` object.  The tie attributes and
`_original_` are `Option`s: `none` means the attribute is absent on the
object (as after unpickling). -/
structure ParamP where
  buf : List Int
  nameA : PyObj
  parentA : PyObj
  parentIndexA : PyObj
  gradientA : PyObj
  currentSliceA : PyObj
  realshapeA : PyObj
  realsizeA : PyObj
  realndimA : PyObj
  tiedToA : Option (List Nat)
  tiedToMeA : Option (List (Nat × List Nat))
  originalA : Option Bool
deriving DecidableEq, Repr

/-- `Param.__reduce__`: the buffer (ndarray state) and the attribute tuple,
in source order. -/
def reduceF (p : ParamP) : List Int × List PyObj :=
  (p.buf, [p.nameA, p.parentA, p.parentIndexA, p.gradientA, p.currentSliceA,
    p.realshapeA, p.realsizeA, p.realndimA])

/-- Python `list.pop()`: remove and return the last element. -/
def pyPop (st : List PyObj) : PyObj × List PyObj :=
  (st.getLastD PyObj.noneV, st.dropLast)

/-- `Param.__setstate__`: restore the ndarray state, then pop the
attributes in the source's order: `_realndim_`, `_realsize_`,
`_realshape_`, `_current_slice_`, `_parent_index_`, `_gradient_`,
`_parent_`, `_name_`. -/
def setstateF (buf : List Int) (st : List PyObj) : ParamP :=
  let p1 := pyPop st
  let p2 := pyPop p1.2
  let p3 := pyPop p2.2
  let p4 := pyPop p3.2
  let p5 := pyPop p4.2
  let p6 := pyPop p5.2
  let p7 := pyPop p6.2
  let p8 := pyPop p7.2
  { buf := buf
    realndimA := p1.1
    realsizeA := p2.1
    realshapeA := p3.1
    currentSliceA := p4.1
    parentIndexA := p5.1
    gradientA := p6.1
    parentA := p7.1
    nameA := p8.1
    tiedToA := none
    tiedToMeA := none
    originalA := none }

/-- Unpickling of a pickled `Param`. -/
def pickleRoundTrip (p : ParamP) : ParamP :=
  setstateF (reduceF p).1 (reduceF p).2

/-! ### Claim C10 -/

def c10p : ParamP :=
  { buf := [3, 4]
    nameA := PyObj.strV "p"
    parentA := PyObj.noneV
    parentIndexA := PyObj.natV 2
    gradientA := PyObj.gradFnV 7
    currentSliceA := PyObj.sliceV [0]
    realshapeA := PyObj.shapeV [2]
    realsizeA := PyObj.natV 2
    realndimA := PyObj.natV 1
    tiedToA := some [9]
    tiedToMeA := some [(3, [0])]
    originalA := some true }

/-- C10 (code bug evidence): `__reduce__` stores the tuple
`(name, parent, parent_index, gradient, current_slice, realshape, realsize,
realndim)` but `__setstate__` pops `_parent_index_` BEFORE `_gradient_`, so
the two attributes come back exchanged: a parameter pickled with
`_parent_index_ = 2` and `_gradient_ = gradFn 7` is restored with
`_parent_index_ = gradFn 7` and `_gradient_ = 2`.  The buffer and the other
six attributes are restored, and the tie state and `_original_` flag are
not serialized (absent after the round trip), as the claim says. -/
theorem pickle_swaps_parent_index_and_gradient :
    (pickleRoundTrip c10p).buf = c10p.buf ∧
    (pickleRoundTrip c10p).parentIndexA = PyObj.gradFnV 7 ∧
    (pickleRoundTrip c10p).gradientA = PyObj.natV 2 ∧
    (pickleRoundTrip c10p).parentIndexA ≠ c10p.parentIndexA ∧
    (pickleRoundTrip c10p).nameA = c10p.nameA ∧
    (pickleRoundTrip c10p).parentA = c10p.parentA ∧
    (pickleRoundTrip c10p).currentSliceA = c10p.currentSliceA ∧
    (pickleRoundTrip c10p).realshapeA = c10p.realshapeA ∧
    (pickleRoundTrip c10p).realsizeA = c10p.realsizeA ∧
    (pickleRoundTrip c10p).realndimA = c10p.realndimA ∧
    (pickleRoundTrip c10p).tiedToA = none ∧
    (pickleRoundTrip c10p).tiedToMeA = none ∧
    (pickleRoundTrip c10p).originalA = none := by
  decide

/-! ### The n-dimensional propagation semantics

The functions above (`fireChangedF`, `onChangeF`, `setItemE`, `tieToF`) are
the specialization of the tie machinery to one-dimensional backing buffers,
where `val[ind]` — `val = self.base`, `ind` a list of raveled offsets — is
an exact flat gather; the already-settled concrete scenarios live there.
The general semantics is modelled here: `self.base` keeps its real
n-dimensional shape, and indexing it with an integer list indexes AXIS 0,
so for a backing with `ndim >= 2` the raveled offsets are out of bounds for
axis 0 (`IndexError`) whenever any offset reaches `shape[0]`, and otherwise
gather whole rows.  Exceptions propagate: they abort the listener loop of
`_fire_changed`, skip `parameters_changed` in `__setitem__`, and escape
`tie_to` (whose `try` converts a `ValueError` into the shape-mismatch
re-raise and lets `IndexError` through).  Error results carry no model:
no claim below inspects the partially-mutated state a raised exception
leaves behind.
-/

/-- Python exception kinds raised by the tie machinery. -/
inductive PyExc where
  | indexError (msg : String)
  | valueError (msg : String)
deriving DecidableEq, Repr

/-- An ndarray value: its shape and its row-major flattened data. -/
structure NdVals where
  vshape : List Nat
  vdata : List Int
deriving DecidableEq, Repr

/-- Common broadcast shape of two reversed (trailing-axis-first) shapes. -/
def commonShapeRev : List Nat → List Nat → Option (List Nat)
  | [], ys => some ys
  | x :: xs, [] => some (x :: xs)
  | x :: xs, y :: ys =>
    match commonShapeRev xs ys with
    | none => none
    | some r =>
      if x = y then some (x :: r)
      else if x = 1 then some (y :: r)
      else if y = 1 then some (x :: r)
      else none

/-- numpy's common broadcast shape of two shapes (`none` if incompatible). -/
def commonShape (a b : List Nat) : Option (List Nat) :=
  (commonShapeRev a.reverse b.reverse).map List.reverse

/-- All coordinates of a shape, in C (row-major, last-axis-fastest) order. -/
def allCoords : List Nat → List (List Nat)
  | [] => [[]]
  | d :: t => (List.range d).flatMap (fun i => (allCoords t).map (i :: ·))

/-- Row-major strides of a shape (`strides[i] = prod shape[i+1:]`). -/
def stridesN : List Nat → List Nat
  | [] => []
  | _ :: t => t.prod :: stridesN t

/-- Raveled offset of a coordinate. -/
def ravelN (strides c : List Nat) : Nat :=
  (List.zipWith (· * ·) strides c).sum

/-- Project a coordinate of a broadcast target onto a source shape:
right-align, and read position `0` on axes the source holds with extent 1. -/
def projectIdx (vshape coord : List Nat) : List Nat :=
  List.zipWith (fun d c => if d = 1 then 0 else c) vshape
    (coord.drop (coord.length - vshape.length))

/-- Element of an ndarray value at a (broadcast-target) coordinate. -/
def ndGet (v : NdVals) (coord : List Nat) : Int :=
  v.vdata.getD (ravelN (stridesN v.vshape) (projectIdx v.vshape coord)) 0

/-- numpy broadcast of a value to a target shape (`none` raises
`ValueError: could not broadcast input array`). -/
def broadcastND (v : NdVals) (tgt : List Nat) : Option (List Int) :=
  if broadcastableTo v.vshape tgt then some ((allCoords tgt).map (ndGet v))
  else none

/-- `numpy.all(a == b)` with mutual broadcasting; on incompatible shapes the
numpy of GPy's era returns the scalar `False` (with a deprecation warning)
rather than raising. -/
def ndEqAll (a b : NdVals) : Bool :=
  match commonShape a.vshape b.vshape with
  | some s =>
    match broadcastND a s, broadcastND b s with
    | some xa, some xb => xa == xb
    | _, _ => false
  | none => false

/-- `val[ind]` for `val = self.base` of shape `bshape` (flat data `buf`) and
`ind` a list of raveled offsets: a one-dimensional base gives the exact flat
fancy gather; a base with two or more axes is indexed on AXIS 0, raising
`IndexError` when an offset reaches `shape[0]` and otherwise gathering whole
rows (shape `(len(ind),) + shape[1:]`). -/
def baseIndexE (bshape : List Nat) (buf : List Int) (offs : List Nat) :
    Except PyExc NdVals :=
  if bshape.length ≤ 1 then
    if offs.all (fun o => o < buf.length) then
      Except.ok ⟨[offs.length], gatherOffs buf offs⟩
    else Except.error (PyExc.indexError "index out of bounds for axis 0")
  else
    if offs.all (fun o => o < bshape.headD 0) then
      Except.ok ⟨offs.length :: bshape.tail,
        offs.flatMap (fun o => (buf.drop (o * bshape.tail.prod)).take bshape.tail.prod)⟩
    else Except.error (PyExc.indexError "index out of bounds for axis 0")

/-- A tie listener with its view geometry: the parent index of its original,
the raveled offsets its `_current_slice_` denotes (in the view's C order),
and the view's shape (needed for the broadcasting of propagated values). -/
structure ListenerX where
  lpid : Nat
  lOffsets : List Nat
  lshape : List Nat
deriving DecidableEq, Repr

/-- One original parameter (n-dimensional semantics): flat buffer in raveled
order, backing shape, name, `_tied_to_me_` and `_tied_to_`. -/
structure PStateX where
  buf : List Int
  shape : List Nat
  pname : String
  tiedToMe : List (ListenerX × List Nat)
  tiedTo : List Nat
deriving DecidableEq, Repr

/-- The owner's registry (n-dimensional semantics). -/
structure ModelX where
  params : Nat → PStateX
  fixedSet : List Nat

def getPX (m : ModelX) (pid : Nat) : PStateX := m.params pid

def setPX (m : ModelX) (pid : Nat) (ps : PStateX) : ModelX :=
  { m with params := fun j => if j = pid then ps else m.params j }

def setBufX (m : ModelX) (pid : Nat) (b : List Int) : ModelX :=
  setPX m pid { getPX m pid with buf := b }

/-- Raw element scatter `buf[offs[k]] = vals[k]` (values already broadcast
to the write positions). -/
def scatterX (buf : List Int) (offs : List Nat) (vals : List Int) : List Int :=
  (offs.zip vals).foldl (fun b p => b.set p.1 p.2) buf

/-- Outcome of a propagation step: the resulting state, the recorded calls,
and the exception currently propagating (if any). -/
structure PropRes where
  model : ModelX
  events : List Event
  exc : Option PyExc

/-- `Param._fire_changed` under the n-dimensional semantics: for every
`(tied, ind)` in `_tied_to_me_`, run `tied._on_change(self.base, list(ind))`
(inlined below); an exception raised by one listener aborts the loop and
propagates.  `_on_change`: compute `val[ind]` (may raise `IndexError`); if
the listener's elements already equal it, do nothing; otherwise broadcast it
onto the listener's view (raising `ValueError` on failure), write through
the original's `__setitem__` (which fires the original's listeners and then
`parameters_changed`), and finally fire the listener's own shared
`_tied_to_me_`.  `fuel` bounds the cascade depth; the source recursion is
unbounded, and fuel exhaustion is reported as a completed cascade. -/
def fireChangedX : Nat → ModelX → Nat → PropRes
  | 0, m, pid => ⟨m, [Event.fired pid], none⟩
  | fuel + 1, m, pid =>
    ((getPX m pid).tiedToMe).foldl
      (fun acc e =>
        match acc.exc with
        | some _ => acc
        | none =>
          match baseIndexE (getPX acc.model pid).shape (getPX acc.model pid).buf e.2 with
          | Except.error exc => ⟨acc.model, acc.events, some exc⟩
          | Except.ok valind =>
            if ndEqAll ⟨e.1.lshape, gatherOffs (getPX acc.model e.1.lpid).buf e.1.lOffsets⟩
                valind then acc
            else
              match broadcastND valind e.1.lshape with
              | none => ⟨acc.model, acc.events,
                  some (PyExc.valueError "could not broadcast input array")⟩
              | some w =>
                let m1 := setBufX acc.model e.1.lpid
                  (scatterX (getPX acc.model e.1.lpid).buf e.1.lOffsets w)
                let r2 := fireChangedX fuel m1 e.1.lpid
                match r2.exc with
                | some exc2 => ⟨r2.model, acc.events ++ r2.events, some exc2⟩
                | none =>
                  let r4 := fireChangedX fuel r2.model e.1.lpid
                  ⟨r4.model, acc.events ++ r2.events ++ [Event.paramsChanged] ++ r4.events,
                    r4.exc⟩)
      ⟨m, [Event.fired pid], none⟩

/-- `Param.__setitem__` under the n-dimensional semantics: perform the raw
element write, call `_fire_changed()`; `self._parent_.parameters_changed()`
is reached only if the cascade returns without raising. -/
def setItemX (fuel : Nat) (m : ModelX) (pid : Nat) (offs : List Nat)
    (vals : List Int) : PropRes :=
  let m1 := setBufX m pid (scatterX (getPX m pid).buf offs vals)
  let r := fireChangedX fuel m1 pid
  match r.exc with
  | none => ⟨r.model, r.events ++ [Event.paramsChanged], none⟩
  | some e => ⟨r.model, r.events, some e⟩

/-- `Param._add_tie_listener` (n-dimensional semantics). -/
def addListenerX (m : ModelX) (srcPid : Nat) (l : ListenerX) (offs : List Nat) :
    ModelX :=
  let ps := getPX m srcPid
  let entries := ps.tiedToMe
  let entries' :=
    if entries.any (fun e => e.1 = l) then
      entries.map (fun e => if e.1 = l then (e.1, e.2 ∪ offs) else e)
    else entries ++ [(l, offs)]
  setPX m srcPid { ps with tiedToMe := entries' }

/-- Modelled from the spec: the owner's fixed-flag registry
(`self._parent_._set_fixed(self)`; `Parameterized` is not under `src/`). -/
def setFixedX (m : ModelX) (pid : Nat) : ModelX :=
  { m with fixedSet := pid :: m.fixedSet }

/-- Failures of `tie_to` under the n-dimensional semantics: the
`AssertionError` for a non-`Param` argument, the re-raised `ValueError`
naming both parameters and both shapes (raised both when the raw copy fails
to broadcast and when the copy's propagation cascade raises `ValueError`,
since the source's `try` catches any `ValueError` inside `self[:] = param`),
and an uncaught exception (`IndexError`) escaping the cascade. -/
inductive TieFail where
  | typeMismatch (cls : String)
  | shapeMismatch (selfName : String) (selfShape : List Nat)
      (otherName : String) (otherShape : List Nat)
  | raised (e : PyExc)
deriving DecidableEq, Repr

/-- `Param.tie_to(param)` under the n-dimensional semantics, for a view
`sv` of the original `sv.lpid` (a full original has `lOffsets = range size`
and `lshape` the backing shape); the tie target `q` is a full original.
Assert the argument is a `Param`; try `self[:] = param` (broadcast the
target's value onto the view and write through the original's
`__setitem__`; any `ValueError` — broadcast failure or one arising in the
cascade — is re-raised as the shape-mismatch `ValueError`, `IndexError`
propagates); on success append `q` to `_tied_to_`, register `sv` as
listener on `q` for `q._raveled_index()`, and mark `sv` fixed. -/
def tieToX (fuel : Nat) (m : ModelX) (sv : ListenerX) (svName : String)
    (arg : TieArg) : Except TieFail (ModelX × List Event) :=
  match arg with
  | TieArg.notParam cls => Except.error (TieFail.typeMismatch cls)
  | TieArg.param q =>
    let qs := getPX m q
    match broadcastND ⟨qs.shape, qs.buf⟩ sv.lshape with
    | none => Except.error (TieFail.shapeMismatch svName sv.lshape qs.pname qs.shape)
    | some w =>
      let r := setItemX fuel m sv.lpid sv.lOffsets w
      match r.exc with
      | some (PyExc.valueError _) =>
          Except.error (TieFail.shapeMismatch svName sv.lshape qs.pname qs.shape)
      | some (PyExc.indexError msg) =>
          Except.error (TieFail.raised (PyExc.indexError msg))
      | none =>
        let m2 := setPX r.model sv.lpid
          { getPX r.model sv.lpid with tiedTo := (getPX r.model sv.lpid).tiedTo ++ [q] }
        let m3 := addListenerX m2 q sv (List.range (getPX m q).buf.length)
        Except.ok (setFixedX m3 sv.lpid, r.events)

/-! ### Lemmas about the n-dimensional machinery -/

lemma getPX_setPX_self (m : ModelX) (pid : Nat) (ps : PStateX) :
    getPX (setPX m pid ps) pid = ps := by
  simp [getPX, setPX]

lemma getPX_setPX_ne (m : ModelX) (pid j : Nat) (ps : PStateX) (h : j ≠ pid) :
    getPX (setPX m pid ps) j = getPX m j := by
  simp [getPX, setPX, h]

lemma getPX_setBufX_self (m : ModelX) (pid : Nat) (b : List Int) :
    getPX (setBufX m pid b) pid = { getPX m pid with buf := b } := by
  simp [setBufX, getPX_setPX_self]

lemma getPX_setBufX_ne (m : ModelX) (pid j : Nat) (b : List Int) (h : j ≠ pid) :
    getPX (setBufX m pid b) j = getPX m j := by
  simp [setBufX, getPX_setPX_ne _ _ _ _ h]

lemma getPX_setFixedX (m : ModelX) (pid j : Nat) :
    getPX (setFixedX m pid) j = getPX m j := rfl

lemma getPX_addListenerX_ne (m : ModelX) (srcPid : Nat) (l : ListenerX)
    (offs : List Nat) (j : Nat) (h : j ≠ srcPid) :
    getPX (addListenerX m srcPid l offs) j = getPX m j := by
  unfold addListenerX
  exact getPX_setPX_ne _ _ _ _ h

lemma getPX_addListenerX_self_of_empty (m : ModelX) (srcPid : Nat) (l : ListenerX)
    (offs : List Nat) (h : (getPX m srcPid).tiedToMe = []) :
    getPX (addListenerX m srcPid l offs) srcPid
      = { getPX m srcPid with tiedToMe := [(l, offs)] } := by
  simp [addListenerX, h, getPX_setPX_self]

lemma scatterX_length (buf : List Int) (offs : List Nat) (vals : List Int) :
    (scatterX buf offs vals).length = buf.length := by
  unfold scatterX
  generalize offs.zip vals = l
  induction l generalizing buf with
  | nil => rfl
  | cons p l ih => simp [List.foldl_cons, ih]

lemma getD_set_self_int (buf : List Int) (j : Nat) (v : Int) (h : j < buf.length) :
    (buf.set j v).getD j 0 = v := by
  rw [List.getD_eq_getElem _ _ (by simpa using h)]
  exact List.getElem_set_self _

lemma getD_set_ne_int (buf : List Int) (i j : Nat) (v : Int) (h : i ≠ j) :
    (buf.set i v).getD j 0 = buf.getD j 0 := by
  rw [List.getD_eq_getD_get?, List.getD_eq_getD_get?, List.get?_eq_getElem?,
    List.get?_eq_getElem?, List.getElem?_set_ne h]

lemma foldl_set_getD_of_not_mem :
    ∀ (l : List (Nat × Int)) (buf : List Int) (j : Nat),
      (∀ p ∈ l, p.1 ≠ j) →
      (l.foldl (fun b p => b.set p.1 p.2) buf).getD j 0 = buf.getD j 0 := by
  intro l
  induction l with
  | nil => intro buf j _; rfl
  | cons p l ih =>
      intro buf j hp
      rw [List.foldl_cons, ih _ _ (fun q hq => hp q (List.mem_cons_of_mem _ hq))]
      exact getD_set_ne_int _ _ _ _ (hp p (List.mem_cons_self _ _))

lemma gatherOffs_cons (buf : List Int) (o : Nat) (offs : List Nat) :
    gatherOffs buf (o :: offs) = buf.getD o 0 :: gatherOffs buf offs := rfl

lemma scatterX_cons (buf : List Int) (o : Nat) (offs : List Nat) (v : Int)
    (vs : List Int) :
    scatterX buf (o :: offs) (v :: vs) = scatterX (buf.set o v) offs vs := rfl

lemma gather_scatterX :
    ∀ (offs : List Nat) (vals buf : List Int),
      offs.Nodup → (∀ o ∈ offs, o < buf.length) → vals.length = offs.length →
      gatherOffs (scatterX buf offs vals) offs = vals := by
  intro offs
  induction offs with
  | nil =>
      intro vals buf _ _ hlen
      cases vals with
      | nil => rfl
      | cons v vs => simp at hlen
  | cons o offs ih =>
      intro vals buf hnd hbt hlen
      cases vals with
      | nil => simp at hlen
      | cons v vs =>
          rw [scatterX_cons, gatherOffs_cons]
          have hmemo : o ∉ offs := (List.nodup_cons.mp hnd).1
          have h1 : (scatterX (buf.set o v) offs vs).getD o 0 = v := by
            unfold scatterX
            rw [foldl_set_getD_of_not_mem _ _ _ (fun p hp => by
              intro hpo
              exact hmemo (hpo ▸ (List.of_mem_zip hp).1))]
            exact getD_set_self_int _ _ _ (hbt o (List.mem_cons_self _ _))
          have h2 : gatherOffs (scatterX (buf.set o v) offs vs) offs = vs :=
            ih vs (buf.set o v) (List.nodup_cons.mp hnd).2
              (fun o' ho' => by
                rw [List.length_set]
                exact hbt o' (List.mem_cons_of_mem _ ho'))
              (by simpa using hlen)
          rw [h1, h2]

lemma allCoords_length : ∀ (s : List Nat), (allCoords s).length = s.prod
  | [] => rfl
  | d :: t => by
      simp only [allCoords, List.length_flatMap, List.prod_cons]
      have : ∀ i ∈ List.range d,
          (List.length ∘ fun i => (allCoords t).map (i :: ·)) i = t.prod := by
        intro i _
        simp [allCoords_length t]
      rw [List.map_congr_left this]
      simp [List.map_const, List.sum_replicate, Nat.mul_comm]

lemma mem_allCoords_bounds :
    ∀ (s c : List Nat), c ∈ allCoords s → List.Forall₂ (· < ·) c s
  | [], c, hc => by
      simp only [allCoords, List.mem_singleton] at hc
      subst hc
      exact List.Forall₂.nil
  | d :: t, c, hc => by
      simp only [allCoords, List.mem_flatMap, List.mem_map, List.mem_range] at hc
      obtain ⟨i, hi, c', hc', rfl⟩ := hc
      exact List.Forall₂.cons hi (mem_allCoords_bounds t c' hc')

lemma projectIdx_of_bounds (s c : List Nat) (h : List.Forall₂ (· < ·) c s) :
    projectIdx s c = c := by
  unfold projectIdx
  rw [h.length_eq, Nat.sub_self, List.drop_zero]
  induction h with
  | nil => rfl
  | @cons x y cs ys hxy _ ih =>
      rw [List.zipWith_cons_cons, ih]
      congr 1
      by_cases hy : y = 1
      · subst hy
        rw [if_pos rfl]
        omega
      · rw [if_neg hy]

lemma range_flatMap_mul (d P : Nat) :
    (List.range d).flatMap (fun i => (List.range P).map (fun r => P * i + r))
      = List.range (d * P) := by
  induction d with
  | zero => simp
  | succ d ih =>
      rw [List.range_succ, List.flatMap_append, ih, List.flatMap_singleton,
        Nat.succ_mul, List.range_add]
      congr 1
      apply List.map_congr_left
      intro r _
      ring

lemma allCoords_ravel : ∀ (s : List Nat),
    (allCoords s).map (fun c => ravelN (stridesN s) c) = List.range s.prod
  | [] => by
      simp only [allCoords, ravelN, stridesN, List.map_cons, List.map_nil,
        List.zipWith_nil_left, List.sum_nil]
      rfl
  | d :: t => by
      have hrec := allCoords_ravel t
      simp only [allCoords, stridesN, List.map_flatMap, List.map_map]
      have hstep : ∀ i : Nat,
          List.map ((fun c => ravelN (t.prod :: stridesN t) c) ∘ (i :: ·)) (allCoords t)
            = List.map (fun r => t.prod * i + r) (List.range t.prod) := by
        intro i
        rw [← hrec, List.map_map]
        apply List.map_congr_left
        intro c _
        simp [Function.comp, ravelN, List.zipWith_cons_cons]
      simp only [hstep]
      rw [range_flatMap_mul, List.prod_cons]

lemma broadcastableTo_refl (s : List Nat) : broadcastableTo s s = true := by
  unfold broadcastableTo
  rw [List.drop_eq_nil_of_le (by rw [List.length_reverse])]
  simp [List.zipWith_same, List.all_eq_true]

lemma broadcastND_self (s : List Nat) (d : List Int) (hd : d.length = s.prod) :
    broadcastND ⟨s, d⟩ s = some d := by
  unfold broadcastND
  rw [if_pos (broadcastableTo_refl s)]
  congr 1
  have h1 : ∀ c ∈ allCoords s,
      ndGet ⟨s, d⟩ c = d.getD (ravelN (stridesN s) c) 0 := by
    intro c hc
    unfold ndGet
    rw [projectIdx_of_bounds s c (mem_allCoords_bounds s c hc)]
  rw [List.map_congr_left h1,
    show (fun c => d.getD (ravelN (stridesN s) c) 0)
      = (fun r => d.getD r 0) ∘ (fun c => ravelN (stridesN s) c) from rfl,
    ← List.map_map, allCoords_ravel, ← hd]
  exact gather_range d

lemma broadcastND_length {v : NdVals} {tgt : List Nat} {w : List Int}
    (h : broadcastND v tgt = some w) : w.length = tgt.prod := by
  unfold broadcastND at h
  by_cases hb : broadcastableTo v.vshape tgt = true
  · rw [if_pos hb] at h
    injection h with h
    rw [← h, List.length_map, allCoords_length]
  · rw [if_neg hb] at h
    cases h

lemma commonShapeRev_of_ok :
    ∀ (ts ss : List Nat),
      (List.zipWith (fun s t => s == t || s == 1) ss ts).all id = true →
      ss.length ≤ ts.length →
      commonShapeRev ts ss = some ts := by
  intro ts
  induction ts with
  | nil =>
      intro ss _ hlen
      cases ss with
      | nil => rfl
      | cons y ys => simp at hlen
  | cons x xs ih =>
      intro ss h hlen
      cases ss with
      | nil => rfl
      | cons y ys =>
          simp only [List.zipWith_cons_cons, List.all_cons, Bool.and_eq_true, id] at h
          have hpair : y = x ∨ y = 1 := by
            rcases Bool.or_eq_true _ _ |>.mp h.1 with h' | h'
            · exact Or.inl (by simpa using h')
            · exact Or.inr (by simpa using h')
          rw [commonShapeRev,
            ih ys h.2 (by simp only [List.length_cons] at hlen; omega)]
          rcases hpair with rfl | rfl
          · simp
          · by_cases hx : x = 1
            · subst hx
              simp
            · simp [hx]

lemma commonShape_of_bcastOK {src tgt : List Nat}
    (h : broadcastableTo src tgt = true) (hlen : src.length ≤ tgt.length) :
    commonShape tgt src = some tgt := by
  unfold commonShape
  unfold broadcastableTo at h
  rw [Bool.and_eq_true] at h
  rw [commonShapeRev_of_ok _ _ h.1 (by simpa using hlen)]
  simp

lemma ndEqAll_bcast_src {SA : List Nat} {nb : Nat} {w0 ys : List Int}
    (hSAne : SA ≠ []) (hok : broadcastableTo [nb] SA = true)
    (hw0 : w0.length = SA.prod)
    (h : ndEqAll ⟨SA, w0⟩ ⟨[nb], ys⟩ = true) :
    broadcastND ⟨[nb], ys⟩ SA = some w0 := by
  have h1le : ([nb] : List Nat).length ≤ SA.length := by
    cases SA with
    | nil => exact absurd rfl hSAne
    | cons a t => simp
  have hcs := commonShape_of_bcastOK hok h1le
  cases hb : broadcastND ⟨[nb], ys⟩ SA with
  | none =>
      unfold ndEqAll at h
      simp only [hcs, broadcastND_self SA w0 hw0, hb] at h
      exact Bool.noConfusion h
  | some xb =>
      unfold ndEqAll at h
      simp only [hcs, broadcastND_self SA w0 hw0, hb, beq_iff_eq] at h
      rw [h]

lemma fireChangedX_no_listeners (fuel : Nat) (m : ModelX) (pid : Nat)
    (h : (getPX m pid).tiedToMe = []) :
    fireChangedX fuel m pid = ⟨m, [Event.fired pid], none⟩ := by
  cases fuel with
  | zero => rfl
  | succ fuel => rw [fireChangedX, h]; rfl

lemma fireChangedX_succ (fuel : Nat) (m : ModelX) (pid : Nat) :
    fireChangedX (fuel + 1) m pid
      = ((getPX m pid).tiedToMe).foldl
          (fun acc e =>
            match acc.exc with
            | some _ => acc
            | none =>
              match baseIndexE (getPX acc.model pid).shape (getPX acc.model pid).buf e.2 with
              | Except.error exc => ⟨acc.model, acc.events, some exc⟩
              | Except.ok valind =>
                if ndEqAll ⟨e.1.lshape,
                    gatherOffs (getPX acc.model e.1.lpid).buf e.1.lOffsets⟩ valind then acc
                else
                  match broadcastND valind e.1.lshape with
                  | none => ⟨acc.model, acc.events,
                      some (PyExc.valueError "could not broadcast input array")⟩
                  | some w =>
                    let m1 := setBufX acc.model e.1.lpid
                      (scatterX (getPX acc.model e.1.lpid).buf e.1.lOffsets w)
                    let r2 := fireChangedX fuel m1 e.1.lpid
                    match r2.exc with
                    | some exc2 => ⟨r2.model, acc.events ++ r2.events, some exc2⟩
                    | none =>
                      let r4 := fireChangedX fuel r2.model e.1.lpid
                      ⟨r4.model,
                        acc.events ++ r2.events ++ [Event.paramsChanged] ++ r4.events,
                        r4.exc⟩)
          ⟨m, [Event.fired pid], none⟩ := rfl

lemma foldl_propres_events {α : Type _} (f : PropRes → α → PropRes)
    (hf : ∀ acc e, ∃ t, (f acc e).events = acc.events ++ t) :
    ∀ (l : List α) (acc : PropRes), ∃ t, (l.foldl f acc).events = acc.events ++ t := by
  intro l
  induction l with
  | nil => intro acc; exact ⟨[], by simp⟩
  | cons e l ih =>
      intro acc
      obtain ⟨t1, h1⟩ := hf acc e
      obtain ⟨t2, h2⟩ := ih (f acc e)
      exact ⟨t1 ++ t2, by rw [List.foldl_cons, h2, h1, List.append_assoc]⟩

lemma fireChangedX_events_head (fuel : Nat) (m : ModelX) (pid : Nat) :
    ∃ rest, (fireChangedX fuel m pid).events = Event.fired pid :: rest := by
  cases fuel with
  | zero => exact ⟨[], rfl⟩
  | succ fuel =>
      rw [fireChangedX_succ]
      obtain ⟨t, ht⟩ := foldl_propres_events
        (fun acc e =>
          match acc.exc with
          | some _ => acc
          | none =>
            match baseIndexE (getPX acc.model pid).shape (getPX acc.model pid).buf e.2 with
            | Except.error exc => ⟨acc.model, acc.events, some exc⟩
            | Except.ok valind =>
              if ndEqAll ⟨e.1.lshape,
                  gatherOffs (getPX acc.model e.1.lpid).buf e.1.lOffsets⟩ valind then acc
              else
                match broadcastND valind e.1.lshape with
                | none => ⟨acc.model, acc.events,
                    some (PyExc.valueError "could not broadcast input array")⟩
                | some w =>
                  let m1 := setBufX acc.model e.1.lpid
                    (scatterX (getPX acc.model e.1.lpid).buf e.1.lOffsets w)
                  let r2 := fireChangedX fuel m1 e.1.lpid
                  match r2.exc with
                  | some exc2 => ⟨r2.model, acc.events ++ r2.events, some exc2⟩
                  | none =>
                    let r4 := fireChangedX fuel r2.model e.1.lpid
                    ⟨r4.model,
                      acc.events ++ r2.events ++ [Event.paramsChanged] ++ r4.events,
                      r4.exc⟩)
        (by
          intro acc e
          dsimp only
          split
          · exact ⟨[], (List.append_nil _).symm⟩
          · split
            · exact ⟨[], (List.append_nil _).symm⟩
            · split
              · exact ⟨[], (List.append_nil _).symm⟩
              · split
                · exact ⟨[], (List.append_nil _).symm⟩
                · split
                  · exact ⟨_, rfl⟩
                  · exact ⟨_, by rw [List.append_assoc, List.append_assoc]⟩)
        ((getPX m pid).tiedToMe) ⟨m, [Event.fired pid], none⟩
      exact ⟨t, by simpa using ht⟩

lemma broadcastND_none_of_not {s : List Nat} {d : List Int} {tgt : List Nat}
    (h : broadcastableTo s tgt = false) : broadcastND ⟨s, d⟩ tgt = none := by
  unfold broadcastND
  rw [if_neg (by simp [h])]

/-! ### Claim C2 -/

def c2NdA : PStateX := ⟨[0, 0, 0, 0, 0, 0], [2, 3], "A", [], []⟩

def c2NdB : PStateX := ⟨[1, 2, 3, 4, 5, 6], [2, 3], "B", [], []⟩

def c2cm : ModelX :=
  ⟨fun pid => if pid = 0 then c2NdA else if pid = 1 then c2NdB
    else ⟨[], [], "", [], []⟩, []⟩

def c2cm1 : ModelX :=
  ((tieToX 2 c2cm (ListenerX.mk 0 (List.range 6) [2, 3]) "A"
    (TieArg.param 1)).toOption.getD (c2cm, [])).1

/-- C2 (counterexample): A and B of shape `(2, 3)` (broadcast-compatible),
`A.tie_to(B)` succeeds, but the subsequent full write `B[:] = 7` does NOT
propagate: `_fire_changed` passes the raveled offsets `{0..5}` to axis-0
indexing of `B.base`, which has only 2 rows, so the cascade raises
`IndexError` after the raw write — B holds the new values, A keeps the old
copy `[1..6]`, never the written value. -/
theorem tie_write_multidim_source_fails :
    (getPX c2cm1 1).tiedToMe
      = [(ListenerX.mk 0 (List.range 6) [2, 3], List.range 6)] ∧
    (setItemX 2 c2cm1 1 (List.range 6) [7, 7, 7, 7, 7, 7]).exc
      = some (PyExc.indexError "index out of bounds for axis 0") ∧
    (getPX (setItemX 2 c2cm1 1 (List.range 6) [7, 7, 7, 7, 7, 7]).model 1).buf
      = [7, 7, 7, 7, 7, 7] ∧
    (getPX (setItemX 2 c2cm1 1 (List.range 6) [7, 7, 7, 7, 7, 7]).model 0).buf
      = [1, 2, 3, 4, 5, 6] ∧
    (getPX (setItemX 2 c2cm1 1 (List.range 6) [7, 7, 7, 7, 7, 7]).model 0).buf
      ≠ [7, 7, 7, 7, 7, 7] := by
  refine ⟨by decide, by decide, by decide, by decide, by decide⟩

/-- C2 (amended): for a tie target B whose backing buffer is
one-dimensional (where `val[ind]` is an exact flat gather), and a listener
view A over any original — given by its raveled offsets `α` (distinct,
in-bounds, listed in the view's C order) and its view shape `SA` — after a
successful `A.tie_to(B)`, every subsequent element write to B through B's
`__setitem__` completes without raising and leaves A's tied elements equal
to B's new buffer broadcast onto A's view.  This covers tiled broadcasts
such as a `(2, 3)` view tied to a `(3,)` parameter. -/
theorem tie_then_write_propagates_1d
    (fuel fuel0 : Nat) (m : ModelX) (a b : Nat) (α SA : List Nat) (nm : String)
    (m1 : ModelX) (evs : List Event) (offs : List Nat) (w : List Int)
    (hab : a ≠ b)
    (hla : (getPX m a).tiedToMe = [])
    (hlb : (getPX m b).tiedToMe = [])
    (hαnd : α.Nodup)
    (hαlt : ∀ o ∈ α, o < (getPX m a).buf.length)
    (hSA : SA.prod = α.length)
    (hSAne : SA ≠ [])
    (hBsh : (getPX m b).shape = [(getPX m b).buf.length])
    (htie : tieToX fuel0 m (ListenerX.mk a α SA) nm (TieArg.param b)
      = Except.ok (m1, evs)) :
    some (gatherOffs (getPX (setItemX (fuel + 1) m1 b offs w).model a).buf α)
      = broadcastND ⟨(getPX m b).shape,
          (getPX (setItemX (fuel + 1) m1 b offs w).model b).buf⟩ SA ∧
    (setItemX (fuel + 1) m1 b offs w).exc = none := by
  dsimp only [tieToX] at htie
  cases hw : broadcastND ⟨(getPX m b).shape, (getPX m b).buf⟩ SA with
  | none => rw [hw] at htie; cases htie
  | some w0 =>
  have hset0 : setItemX fuel0 m a α w0
      = ⟨setBufX m a (scatterX (getPX m a).buf α w0),
         [Event.fired a, Event.paramsChanged], none⟩ := by
    unfold setItemX
    dsimp only
    rw [fireChangedX_no_listeners _ _ _ (by rw [getPX_setBufX_self]; exact hla)]
    rfl
  simp only [hw, hset0, Except.ok.injEq, Prod.mk.injEq] at htie
  obtain ⟨hm1, -⟩ := htie
  have hw0len : w0.length = α.length := (broadcastND_length hw).trans hSA
  have hbok : broadcastableTo (getPX m b).shape SA = true := by
    cases hbv : broadcastableTo (getPX m b).shape SA with
    | true => rfl
    | false =>
        rw [broadcastND_none_of_not hbv] at hw
        cases hw
  have hPa : getPX m1 a = { getPX m a with
      buf := scatterX (getPX m a).buf α w0,
      tiedTo := (getPX (setBufX m a (scatterX (getPX m a).buf α w0)) a).tiedTo
        ++ [b] } := by
    rw [← hm1, getPX_setFixedX, getPX_addListenerX_ne _ _ _ _ a hab,
      getPX_setPX_self, getPX_setBufX_self]
  have hPa_buf : (getPX m1 a).buf = scatterX (getPX m a).buf α w0 := by rw [hPa]
  have hPa_tme : (getPX m1 a).tiedToMe = [] := by rw [hPa]; exact hla
  have hPa_len : (getPX m1 a).buf.length = (getPX m a).buf.length := by
    rw [hPa_buf, scatterX_length]
  have hPb : getPX m1 b = { getPX m b with
      tiedToMe := [(ListenerX.mk a α SA, List.range (getPX m b).buf.length)] } := by
    rw [← hm1, getPX_setFixedX]
    rw [getPX_addListenerX_self_of_empty _ _ _ _
      (by rw [getPX_setPX_ne _ _ _ _ (Ne.symm hab),
            getPX_setBufX_ne _ _ _ _ (Ne.symm hab)]
          exact hlb)]
    rw [getPX_setPX_ne _ _ _ _ (Ne.symm hab), getPX_setBufX_ne _ _ _ _ (Ne.symm hab)]
  have hPb_buf : (getPX m1 b).buf = (getPX m b).buf := by rw [hPb]
  have hPb_shape : (getPX m1 b).shape = (getPX m b).shape := by rw [hPb]
  have hPb_tme : (getPX m1 b).tiedToMe
      = [(ListenerX.mk a α SA, List.range (getPX m b).buf.length)] := by rw [hPb]
  have hga : gatherOffs (getPX m1 a).buf α = w0 := by
    rw [hPa_buf]
    exact gather_scatterX α w0 (getPX m a).buf hαnd hαlt hw0len
  -- the subsequent write `B[...] = w`
  unfold setItemX
  dsimp only
  set BW := scatterX (getPX m1 b).buf offs w with hBW
  have hBWlen : BW.length = (getPX m b).buf.length := by
    rw [hBW, scatterX_length, hPb_buf]
  have hmWa : getPX (setBufX m1 b BW) a = getPX m1 a := getPX_setBufX_ne _ _ _ _ hab
  have hmWb : getPX (setBufX m1 b BW) b = { getPX m1 b with buf := BW } :=
    getPX_setBufX_self _ _ _
  have hshW : (getPX (setBufX m1 b BW) b).shape = (getPX m b).shape := by
    rw [hmWb]; exact hPb_shape
  have hbufW : (getPX (setBufX m1 b BW) b).buf = BW := by rw [hmWb]
  rw [fireChangedX_succ]
  have hent : (getPX (setBufX m1 b BW) b).tiedToMe
      = [(ListenerX.mk a α SA, List.range (getPX m b).buf.length)] := by
    rw [hmWb]; exact hPb_tme
  rw [hent, List.foldl_cons, List.foldl_nil]
  dsimp only
  have hbase : baseIndexE (getPX (setBufX m1 b BW) b).shape
      (getPX (setBufX m1 b BW) b).buf (List.range (getPX m b).buf.length)
      = Except.ok ⟨[(getPX m b).buf.length], BW⟩ := by
    rw [hshW, hbufW, hBsh]
    unfold baseIndexE
    rw [if_pos (by simp)]
    rw [if_pos (by
      simp only [List.all_eq_true, List.mem_range, decide_eq_true_eq]
      intro o ho
      rw [hBWlen]
      exact ho)]
    rw [List.length_range,
      show List.range (getPX m b).buf.length = List.range BW.length from by rw [hBWlen],
      gather_range]
  rw [hbase]
  dsimp only
  rw [hmWa, hga]
  have hbok' : broadcastableTo [(getPX m b).buf.length] SA = true := by
    rw [← hBsh]; exact hbok
  by_cases hguard :
      ndEqAll ⟨SA, w0⟩ ⟨[(getPX m b).buf.length], BW⟩ = true
  · rw [if_pos hguard]
    dsimp only
    refine ⟨?_, rfl⟩
    rw [hmWa, hga, hbufW, hBsh]
    exact (ndEqAll_bcast_src hSAne hbok'
      ((broadcastND_length hw).symm ▸ rfl) hguard).symm
  · rw [if_neg hguard]
    have hw' : broadcastND ⟨[(getPX m b).buf.length], BW⟩ SA
        = some ((allCoords SA).map (ndGet ⟨[(getPX m b).buf.length], BW⟩)) := by
      unfold broadcastND
      rw [if_pos (by simpa using hbok')]
    rw [hw']
    dsimp only
    have hfm : fireChangedX fuel
        (setBufX (setBufX m1 b BW) a
          (scatterX (getPX m1 a).buf α
            ((allCoords SA).map (ndGet ⟨[(getPX m b).buf.length], BW⟩)))) a
        = ⟨setBufX (setBufX m1 b BW) a
            (scatterX (getPX m1 a).buf α
              ((allCoords SA).map (ndGet ⟨[(getPX m b).buf.length], BW⟩))),
           [Event.fired a], none⟩ := by
      apply fireChangedX_no_listeners
      rw [getPX_setBufX_self]
      show (getPX (setBufX m1 b BW) a).tiedToMe = []
      rw [hmWa]; exact hPa_tme
    rw [hfm]
    dsimp only
    rw [hfm]
    dsimp only
    refine ⟨?_, rfl⟩
    rw [getPX_setBufX_self]
    rw [getPX_setBufX_ne _ _ _ _ (Ne.symm hab), hbufW, hBsh]
    show some (gatherOffs (scatterX (getPX m1 a).buf α
      ((allCoords SA).map (ndGet ⟨[(getPX m b).buf.length], BW⟩))) α) = _
    rw [gather_scatterX α _ (getPX m1 a).buf hαnd
      (by rw [hPa_len]; exact hαlt)
      (by rw [List.length_map, allCoords_length, hSA])]
    rw [hw']

def c2xA : PStateX := ⟨[0, 0, 0, 0, 0, 0], [2, 3], "A", [], []⟩

def c2xB : PStateX := ⟨[7, 8, 9], [3], "B", [], []⟩

def c2xm : ModelX :=
  ⟨fun pid => if pid = 0 then c2xA else if pid = 1 then c2xB
    else ⟨[], [], "", [], []⟩, []⟩

def c2xm1 : ModelX :=
  ((tieToX 2 c2xm (ListenerX.mk 0 (List.range 6) [2, 3]) "A"
    (TieArg.param 1)).toOption.getD (c2xm, [])).1

/-- C2 (witness): a `(2, 3)` view A tied to a `(3,)` parameter B; writing
`B[:] = [10, 20, 30]` completes and leaves A equal to the new values tiled
over both rows. -/
theorem tie_then_write_propagates_1d_witness :
    some (gatherOffs
        (getPX (setItemX (2 + 1) c2xm1 1 (List.range 3) [10, 20, 30]).model 0).buf
        (List.range 6))
      = broadcastND ⟨(getPX c2xm 1).shape,
          (getPX (setItemX (2 + 1) c2xm1 1 (List.range 3) [10, 20, 30]).model 1).buf⟩
          [2, 3] ∧
    (setItemX (2 + 1) c2xm1 1 (List.range 3) [10, 20, 30]).exc = none :=
  tie_then_write_propagates_1d 2 2 c2xm 0 1 (List.range 6) [2, 3] "A" c2xm1
    [Event.fired 0, Event.paramsChanged] (List.range 3) [10, 20, 30]
    (by decide) (by decide) (by decide) (by decide) (by decide) (by decide)
    (by decide) (by decide) rfl

/-! ### Claim C4 -/

/-- C4 (counterexample): writing to a `(2, 3)`-backed B that has a tie
listener performs the raw write and enters `_fire_changed` (event
`fired 1`), but the cascade raises `IndexError` (raveled offsets hit axis-0
indexing of `B.base`), so `parameter.py:300`'s `parameters_changed()` is
never reached: no `paramsChanged` event is produced, refuting "both
notifications happen on every write". -/
theorem setitem_multidim_drops_paramschanged :
    Event.fired 1 ∈ (setItemX 2 c2cm1 1 (List.range 6) [9, 9, 9, 9, 9, 9]).events ∧
    Event.paramsChanged ∉ (setItemX 2 c2cm1 1 (List.range 6) [9, 9, 9, 9, 9, 9]).events ∧
    (setItemX 2 c2cm1 1 (List.range 6) [9, 9, 9, 9, 9, 9]).exc
      = some (PyExc.indexError "index out of bounds for axis 0") := by
  refine ⟨by decide, by decide, by decide⟩

/-- C4 (amended): every write through `Param.__setitem__` performs the
element write and then always calls `_fire_changed()` (the `fired` event is
present on every write); the owner's `parameters_changed()` is reached
exactly when the propagation cascade returns without raising — in
particular on every write to a `Param` with no tie listeners, where the
write always completes and both notifications happen. -/
theorem setitemX_notification_discipline (fuel : Nat) (m : ModelX) (pid : Nat)
    (offs : List Nat) (vals : List Int) :
    Event.fired pid ∈ (setItemX fuel m pid offs vals).events ∧
    ((setItemX fuel m pid offs vals).exc = none →
      Event.paramsChanged ∈ (setItemX fuel m pid offs vals).events) ∧
    ((getPX m pid).tiedToMe = [] →
      (setItemX fuel m pid offs vals).exc = none ∧
      Event.paramsChanged ∈ (setItemX fuel m pid offs vals).events) := by
  refine ⟨?_, ?_, ?_⟩
  · unfold setItemX
    dsimp only
    obtain ⟨rest, hre⟩ := fireChangedX_events_head fuel
      (setBufX m pid (scatterX (getPX m pid).buf offs vals)) pid
    split
    · exact List.mem_append_left _ (by rw [hre]; exact List.mem_cons_self _ _)
    · rw [hre]; exact List.mem_cons_self _ _
  · intro hnone
    unfold setItemX at hnone ⊢
    dsimp only at hnone ⊢
    cases hexc : (fireChangedX fuel
        (setBufX m pid (scatterX (getPX m pid).buf offs vals)) pid).exc with
    | none =>
        simp only [hexc] at hnone ⊢
        simp
    | some e =>
        simp only [hexc] at hnone
        cases hnone
  · intro hemp
    unfold setItemX
    dsimp only
    rw [fireChangedX_no_listeners fuel _ pid (by rw [getPX_setBufX_self]; exact hemp)]
    exact ⟨rfl, by simp⟩

def c4wm : ModelX :=
  ⟨fun _ => ⟨[5], [1], "P", [], []⟩, []⟩

/-- C4 (witness): a write to a listener-free parameter completes, fires,
and notifies the owner. -/
theorem setitemX_notification_discipline_witness :
    Event.fired 0 ∈ (setItemX 2 c4wm 0 [0] [6]).events ∧
    Event.paramsChanged ∈ (setItemX 2 c4wm 0 [0] [6]).events ∧
    (setItemX 2 c4wm 0 [0] [6]).exc = none :=
  ⟨(setitemX_notification_discipline 2 c4wm 0 [0] [6]).1,
   (setitemX_notification_discipline 2 c4wm 0 [0] [6]).2.1 (by decide),
   ((setitemX_notification_discipline 2 c4wm 0 [0] [6]).2.2 (by decide)).1⟩

/-! ### Claim C7 -/

/-- C7: `tie_to` fails with the type-mismatch error exactly when the
argument is not a `Param`; for a `Param` argument whose shape cannot be
broadcast into self's view shape it fails with the shape-mismatch
`ValueError` carrying both parameter names and both shapes (the raw copy
`self[:] = param` fails before any propagation); and whenever `tie_to`
returns successfully, self's parent index has been recorded in the owner's
fixed registry. -/
theorem tieto_error_classification_nd (fuel : Nat) (m : ModelX) (sv : ListenerX)
    (nm : String) (arg : TieArg) :
    ((∃ cls, tieToX fuel m sv nm arg = Except.error (TieFail.typeMismatch cls)) ↔
      ∀ q, arg ≠ TieArg.param q) ∧
    (∀ q, arg = TieArg.param q →
      broadcastableTo (getPX m q).shape sv.lshape = false →
      tieToX fuel m sv nm arg = Except.error (TieFail.shapeMismatch
        nm sv.lshape (getPX m q).pname (getPX m q).shape)) ∧
    (∀ m' evs, tieToX fuel m sv nm arg = Except.ok (m', evs) →
      sv.lpid ∈ m'.fixedSet) := by
  refine ⟨?_, ?_, ?_⟩
  · constructor
    · rintro ⟨cls, hcls⟩ q rfl
      dsimp only [tieToX] at hcls
      cases hw : broadcastND ⟨(getPX m q).shape, (getPX m q).buf⟩ sv.lshape with
      | none => rw [hw] at hcls; cases hcls
      | some w =>
          rw [hw] at hcls
          dsimp only at hcls
          cases hexc : (setItemX fuel m sv.lpid sv.lOffsets w).exc with
          | none => rw [hexc] at hcls; cases hcls
          | some e =>
              cases e with
              | indexError msg => rw [hexc] at hcls; cases hcls
              | valueError msg => rw [hexc] at hcls; cases hcls
    · intro hnot
      cases arg with
      | param q => exact absurd rfl (hnot q)
      | notParam cls => exact ⟨cls, rfl⟩
  · rintro q rfl hsh
    dsimp only [tieToX]
    rw [broadcastND_none_of_not hsh]
  · intro m' evs hok
    dsimp only [tieToX] at hok
    cases arg with
    | notParam cls => cases hok
    | param q =>
        dsimp only at hok
        cases hw : broadcastND ⟨(getPX m q).shape, (getPX m q).buf⟩ sv.lshape with
        | none => rw [hw] at hok; cases hok
        | some w =>
            rw [hw] at hok
            dsimp only at hok
            cases hexc : (setItemX fuel m sv.lpid sv.lOffsets w).exc with
            | none =>
                rw [hexc] at hok
                rw [Except.ok.injEq, Prod.mk.injEq] at hok
                obtain ⟨hm', -⟩ := hok
                rw [← hm']
                exact List.mem_cons_self _ _
            | some e =>
                cases e with
                | indexError msg => rw [hexc] at hok; cases hok
                | valueError msg => rw [hexc] at hok; cases hok

def c7xm : ModelX :=
  ⟨fun pid => if pid = 0 then ⟨[1, 2, 3], [3], "A", [], []⟩
    else ⟨[9], [1], "B", [], []⟩, []⟩

def c7xok : ModelX :=
  ((tieToX 2 c7xm (ListenerX.mk 0 (List.range 3) [3]) "A"
    (TieArg.param 1)).toOption.getD (c7xm, [])).1

/-- C7 (witness): tying to a non-`Param` gives the type-mismatch error;
tying the shape-`[3]` parameter into the shape-`[1]` view gives the
shape-mismatch error naming both parameters and both shapes; a successful
tie (scalar B into the length-3 view) records parameter 0 as fixed. -/
theorem tieto_error_classification_nd_witness :
    (∃ cls, tieToX 2 c7xm (ListenerX.mk 0 (List.range 3) [3]) "A"
      (TieArg.notParam "float") = Except.error (TieFail.typeMismatch cls)) ∧
    tieToX 2 c7xm (ListenerX.mk 1 (List.range 1) [1]) "B" (TieArg.param 0)
      = Except.error (TieFail.shapeMismatch "B" [1]
          (getPX c7xm 0).pname (getPX c7xm 0).shape) ∧
    0 ∈ c7xok.fixedSet :=
  ⟨(tieto_error_classification_nd 2 c7xm (ListenerX.mk 0 (List.range 3) [3]) "A"
      (TieArg.notParam "float")).1.mpr (fun q h => by cases h),
   (tieto_error_classification_nd 2 c7xm (ListenerX.mk 1 (List.range 1) [1]) "B"
      (TieArg.param 0)).2.1 0 rfl (by decide),
   (tieto_error_classification_nd 2 c7xm (ListenerX.mk 0 (List.range 3) [3]) "A"
      (TieArg.param 1)).2.2 c7xok [Event.fired 0, Event.paramsChanged] rfl⟩

end GPyParam
